import Mathlib

set_option maxRecDepth 100000

unseal Rat.add Rat.mul Rat.sub Rat.inv Rat.ofScientific

/-!
# Verification of the SMC algorithmic trading engine

A shallow embedding, over `ℚ` prices and `ℕ` bar indices/timestamps, of the
core of the engine:

* `smc_engine/core/smc_primitives.py` — ATR, market structure, BOS/ChoCH,
  order blocks, fair value gaps, liquidity grabs;
* `smc_engine/core/strategy.py` — `SMCStrategy.generate_signals`;
* `smc_engine/backtest/simulator.py` — `OrderSimulator`;
* `smc_engine/backtest/backtester.py` — `Backtester.run` and helpers;
* `smc_engine/backtest/metrics.py` — the profit-factor / win-rate part of
  `calculate_metrics`.

Conventions of the embedding:

* A pandas `DataFrame` of OHLC rows becomes `List Bar`; the index is the bar
  position, so a timestamp is a `ℕ` equal to the bar's position (the engine
  only ever compares timestamps for equality and keeps them ordered, so this
  is faithful for any strictly increasing, duplicate-free index).
* Python floats become `ℚ`.  With numeric (non-NaN) input data the ATR series
  produced by `calculate_atr` never contains NaN (the first true-range value
  is `|high₀ - low₀|` because pandas' row-wise `max` skips the NaNs coming
  from the shifted close), hence the `isna` guards in the source are dead for
  the inputs modelled here and no NaN value needs to be represented.
* The random factor drawn by `random.uniform(0.5, 1.5)` inside
  `OrderSimulator.simulate_fill` is modelled as an explicit stream
  `ℕ → ℚ` of draws together with a counter threaded through the backtester
  state: draw `k` models the `k`-th value produced by Python's process-global
  `random` module during the run.
-/

namespace SMC

/-- One OHLC bar.  `open_` is the `open` column (renamed: `open` is a Lean
keyword). -/
structure Bar where
  open_ : ℚ
  high : ℚ
  low : ℚ
  close : ℚ
deriving DecidableEq, Repr, Inhabited

/-- Positional access into the bar list, defaulting to the zero bar (all
accesses in the embedded code are within bounds; the default is never
observable there). -/
def barAt (ohlc : List Bar) (i : ℕ) : Bar :=
  ohlc.getD i default

/-- Last element of a rational list, defaulting to 0 (`iloc[-1]`). -/
def lastQ (xs : List ℚ) : ℚ :=
  xs.getD (xs.length - 1) 0

/-- Maximum of a list of rationals with a seed value. -/
def maxQ (seed : ℚ) (xs : List ℚ) : ℚ :=
  xs.foldl max seed

/-- Minimum of a list of rationals with a seed value. -/
def minQ (seed : ℚ) (xs : List ℚ) : ℚ :=
  xs.foldl min seed

/-! ## `calculate_atr` (smc_primitives.py)

```python
prev_close = close.shift()
tr = pd.concat([(high - low).abs(), (high - prev_close).abs(),
                (low - prev_close).abs()], axis=1).max(axis=1)
return tr.ewm(span=period, adjust=False).mean()
```
-/

/-- True-range values of all bars after the first, given the previous bar's
close. -/
def trFrom (prevClose : ℚ) : List Bar → List ℚ
  | [] => []
  | b :: rest =>
      max |b.high - b.low| (max |b.high - prevClose| |b.low - prevClose|)
        :: trFrom b.close rest

/-- The true-range series.  For bar 0 the shifted close is NaN, and pandas'
row-wise `max` skips NaNs, leaving `|high - low|`. -/
def true_ranges : List Bar → List ℚ
  | [] => []
  | b :: rest => |b.high - b.low| :: trFrom b.close rest

/-- `ewm(span=period, adjust=False).mean()`: `y₀ = x₀`,
`yₜ = (1-α)yₜ₋₁ + αxₜ` with `α = 2/(span+1)`. -/
def ewmFrom (α : ℚ) (y : ℚ) : List ℚ → List ℚ
  | [] => []
  | x :: rest =>
      let y' := (1 - α) * y + α * x
      y' :: ewmFrom α y' rest

def ewm_mean (α : ℚ) : List ℚ → List ℚ
  | [] => []
  | x :: rest => x :: ewmFrom α x rest

/-- `calculate_atr(ohlc, period)`. -/
def calculate_atr (ohlc : List Bar) (period : ℕ) : List ℚ :=
  ewm_mean (2 / (period + 1)) (true_ranges ohlc)

/-! ## Market structure (smc_primitives.py) -/

inductive SwingType where
  | high
  | low
deriving DecidableEq, Repr

inductive TrendDirection where
  | bullish
  | bearish
  | ranging
deriving DecidableEq, Repr

structure SwingPoint where
  index : ℕ
  timestamp : ℕ
  price : ℚ
  swing_type : SwingType
deriving DecidableEq, Repr

structure MarketStructure where
  swings : List SwingPoint
  trend : TrendDirection
  last_swing_high : Option SwingPoint
  last_swing_low : Option SwingPoint
deriving DecidableEq, Repr

/-- The centred rolling window `[s-lookback, s+lookback]` of highs used by
`rolling(lookback*2+1, center=True).max()`; the rolling value is defined
(non-NaN) exactly when the full window is in range, i.e.
`lookback ≤ s ∧ s + lookback < n`. -/
def windowVals (f : Bar → ℚ) (ohlc : List Bar) (s lookback : ℕ) : List ℚ :=
  (List.range (2 * lookback + 1)).map fun j => f (barAt ohlc (s - lookback + j))

/-- `(highs == rolling_high) & (highs > np.roll(highs,1)) & (highs > np.roll(highs,-1))`
at position `s`.  The comparison with the rolling max is `False` wherever the
window is incomplete (NaN), which confines `s` to the interior, so the
circular wrap-around of `np.roll` at the array ends is never exercised for the
`lookback ≥ 1` values used by the engine. -/
def isSwingHigh (ohlc : List Bar) (lookback s : ℕ) : Bool :=
  let n := ohlc.length
  decide (lookback ≤ s) && decide (s + lookback < n) &&
  decide ((barAt ohlc s).high =
    maxQ (barAt ohlc (s - lookback)).high (windowVals Bar.high ohlc s lookback)) &&
  decide ((barAt ohlc s).high > (barAt ohlc (s - 1)).high) &&
  decide ((barAt ohlc s).high > (barAt ohlc (s + 1)).high)

def isSwingLow (ohlc : List Bar) (lookback s : ℕ) : Bool :=
  let n := ohlc.length
  decide (lookback ≤ s) && decide (s + lookback < n) &&
  decide ((barAt ohlc s).low =
    minQ (barAt ohlc (s - lookback)).low (windowVals Bar.low ohlc s lookback)) &&
  decide ((barAt ohlc s).low < (barAt ohlc (s - 1)).low) &&
  decide ((barAt ohlc s).low < (barAt ohlc (s + 1)).low)

/-- The swing list: the source appends all swing highs (ascending index),
then all swing lows, then stable-sorts by index — equivalently, per index,
a high entry precedes a low entry. -/
def swingsOf (ohlc : List Bar) (lookback : ℕ) : List SwingPoint :=
  (List.range ohlc.length).flatMap fun s =>
    (if isSwingHigh ohlc lookback s then
      [⟨s, s, (barAt ohlc s).high, SwingType.high⟩] else []) ++
    (if isSwingLow ohlc lookback s then
      [⟨s, s, (barAt ohlc s).low, SwingType.low⟩] else [])

/-- Trend classification from the last two swing highs and lows
(`highs_seq`, `lows_seq`). -/
def trendFromSwings (swings : List SwingPoint) : TrendDirection :=
  let highs := swings.filter fun s => s.swing_type = SwingType.high
  let lows := swings.filter fun s => s.swing_type = SwingType.low
  if 2 ≤ highs.length ∧ 2 ≤ lows.length then
    let h1 := highs.getD (highs.length - 1) ⟨0, 0, 0, SwingType.high⟩
    let h2 := highs.getD (highs.length - 2) ⟨0, 0, 0, SwingType.high⟩
    let l1 := lows.getD (lows.length - 1) ⟨0, 0, 0, SwingType.low⟩
    let l2 := lows.getD (lows.length - 2) ⟨0, 0, 0, SwingType.low⟩
    if h1.price > h2.price ∧ l1.price > l2.price then TrendDirection.bullish
    else if h1.price < h2.price ∧ l1.price < l2.price then TrendDirection.bearish
    else TrendDirection.ranging
  else TrendDirection.ranging

/-- `detect_market_structure(ohlc, lookback)`. -/
def detect_market_structure (ohlc : List Bar) (lookback : ℕ) : MarketStructure :=
  if ohlc.length < lookback * 2 + 1 then
    ⟨[], TrendDirection.ranging, none, none⟩
  else
    let swings := swingsOf ohlc lookback
    let highs := swings.filter fun s => s.swing_type = SwingType.high
    let lows := swings.filter fun s => s.swing_type = SwingType.low
    { swings := swings
      trend := trendFromSwings swings
      last_swing_high := highs.getLast?
      last_swing_low := lows.getLast? }

/-! ## BOS / ChoCH (smc_primitives.py) -/

/-- `is_bos(ohlc, swing, bos_margin_atr, atr_period)`.  The `isna` fallback
to `0.0001` is unreachable for the numeric inputs modelled here. -/
def is_bos (ohlc : List Bar) (swing : SwingPoint) (bos_margin_atr : ℚ)
    (atr_period : ℕ) : Bool :=
  if ohlc.length < atr_period then false
  else
    let atr := lastQ (calculate_atr ohlc atr_period)
    let margin := bos_margin_atr * atr
    let close := (barAt ohlc (ohlc.length - 1)).close
    match swing.swing_type with
    | SwingType.high => decide (close > swing.price + margin)
    | SwingType.low => decide (close < swing.price - margin)

/-- `detect_choch(ohlc, ms_or_swings, bos_margin_atr, atr_period)` in the
branch actually exercised by the strategy: `SMCStrategy.generate_signals`
passes `ms.swings`, a `list`, so the minimal `MarketStructure` is rebuilt
from the swing list.  Returns a plain `bool`. -/
def detect_choch (ohlc : List Bar) (swings : List SwingPoint)
    (bos_margin_atr : ℚ) (atr_period : ℕ) : Bool :=
  let highs := swings.filter fun s => s.swing_type = SwingType.high
  let lows := swings.filter fun s => s.swing_type = SwingType.low
  let trend := trendFromSwings swings
  if trend = TrendDirection.ranging then false
  else if trend = TrendDirection.bullish then
    match lows.getLast? with
    | some lsl => is_bos ohlc lsl bos_margin_atr atr_period
    | none => false
  else
    match highs.getLast? with
    | some lsh => is_bos ohlc lsh bos_margin_atr atr_period
    | none => false

/-! ## Order blocks (smc_primitives.py, `find_order_blocks`) -/

inductive Dir where
  | bullish
  | bearish
deriving DecidableEq, Repr

structure OrderBlock where
  type : Dir
  start_idx : ℕ
  end_idx : ℕ
  price_top : ℚ
  price_bottom : ℚ
  strength : ℚ
deriving DecidableEq, Repr

structure FairValueGap where
  type : Dir
  start_idx : ℕ
  end_idx : ℕ
  gap_top : ℚ
  gap_bottom : ℚ
  size_pips : ℚ
deriving DecidableEq, Repr

structure LiquidityGrab where
  type : Dir
  swing_idx : ℕ
  grab_idx : ℕ
  swing_price : ℚ
  grab_price : ℚ
  reclaim_bars : ℕ
deriving DecidableEq, Repr

/-- `LiquidityGrab.end_idx` property: `return self.grab_idx`. -/
def LiquidityGrab.end_idx (g : LiquidityGrab) : ℕ := g.grab_idx

/-- Strategy parameters: the `params` dict together with the defaults that
`dict.get` supplies inside the detectors.  `strict` models
`params.get("detection_method", "strict") == "strict"`. -/
structure Params where
  lookback : ℕ
  risk_reward : ℚ
  atr_period : ℕ
  min_impulse_bars : ℕ
  min_impulse_atr : ℚ
  ob_expansion_atr : ℚ
  min_gap_atr : ℚ
  fvg_expand_atr : ℚ
  liquidity_grab_atr : ℚ
  max_age_bars : ℕ
  strict : Bool
  use_order_blocks : Bool
  use_fvg : Bool
  use_liquidity_grabs : Bool
deriving DecidableEq, Repr

/-- `close > open` per bar (the `bullish` boolean series). -/
def bullishC (ohlc : List Bar) (i : ℕ) : Bool :=
  decide ((barAt ohlc i).close > (barAt ohlc i).open_)

/-- `bearish = ~bullish`. -/
def bearishC (ohlc : List Bar) (i : ℕ) : Bool :=
  ! bullishC ohlc i

/-- `bearish[:i][::-1].idxmax()` guarded by `.any()`: the greatest index
`j < i` with `bearish[j]`, if any. -/
def lastIdxBelow (p : ℕ → Bool) (i : ℕ) : Option ℕ :=
  (List.range i).reverse.find? p

/-- `add_block` inside `find_order_blocks`: the zone is built from the candle
at `ob_idx`, body-based in strict mode, wick-based otherwise, expanded
outward by `ob_expansion_atr * ATR`.  `strength` divides by `current_atr`
(in ℚ, division by zero yields 0; the field is not used by any claim). -/
def addBlock (ohlc : List Bar) (p : Params) (blockType : Dir)
    (obIdx i : ℕ) (currentAtr : ℚ) : OrderBlock :=
  let mb := p.min_impulse_bars
  let expansion := p.ob_expansion_atr * currentAtr
  let b := barAt ohlc obIdx
  let top := if p.strict then max b.open_ b.close + expansion
             else b.high + expansion
  let bottom := if p.strict then min b.open_ b.close - expansion
                else b.low - expansion
  { type := blockType
    start_idx := obIdx
    end_idx := i + mb - 1
    price_top := top
    price_bottom := bottom
    strength := |(barAt ohlc (i + mb - 1)).close - b.open_| / currentAtr }

/-- The order blocks contributed by the scan position `i` (bullish impulse
branch, then bearish impulse branch, as in the source). -/
def obAt (ohlc : List Bar) (p : Params) (atr : List ℚ) (i : ℕ) : List OrderBlock :=
  let mb := p.min_impulse_bars
  let currentAtr := atr.getD i 0
  let bullImpulse :=
    (List.range mb).all (fun j => bullishC ohlc (i + j)) &&
    decide ((barAt ohlc (i + mb - 1)).high - (barAt ohlc i).low ≥
      p.min_impulse_atr * currentAtr)
  let bearImpulse :=
    (List.range mb).all (fun j => bearishC ohlc (i + j)) &&
    decide ((barAt ohlc i).high - (barAt ohlc (i + mb - 1)).low ≥
      p.min_impulse_atr * currentAtr)
  (if bullImpulse then
    match lastIdxBelow (bearishC ohlc) i with
    | some obIdx =>
        if i - obIdx ≤ p.max_age_bars then
          [addBlock ohlc p Dir.bullish obIdx i currentAtr] else []
    | none => []
   else []) ++
  (if bearImpulse then
    match lastIdxBelow (bullishC ohlc) i with
    | some obIdx =>
        if i - obIdx ≤ p.max_age_bars then
          [addBlock ohlc p Dir.bearish obIdx i currentAtr] else []
    | none => []
   else [])

/-- `find_order_blocks(ohlc, params)`.  The scan runs over
`range(atr_period, len(ohlc) - min_bars)`; the `isnan` guard on the ATR is
dead for numeric input. -/
def find_order_blocks (ohlc : List Bar) (p : Params) : List OrderBlock :=
  let n := ohlc.length
  if n < p.atr_period + p.min_impulse_bars then []
  else
    let atr := calculate_atr ohlc p.atr_period
    ((List.range (n - p.min_impulse_bars)).drop p.atr_period).flatMap
      (obAt ohlc p atr)

/-! ## Fair value gaps (smc_primitives.py, `find_fvg`) -/

/-- The fair value gap contributed by the triplet starting at `i`, if any.
Bullish: `high[i] < low[i+2]` with gap at least `min_gap`; the recorded
boundaries are `gap_top = low[i+2] + expand`, `gap_bottom = high[i] - expand`
(mirror for bearish). -/
def fvgAt (ohlc : List Bar) (p : Params) (atr : List ℚ) (i : ℕ) :
    List FairValueGap :=
  let currentAtr := atr.getD i 0
  let expand := p.fvg_expand_atr * currentAtr
  let minGap := p.min_gap_atr * currentAtr
  let high_i := (barAt ohlc i).high
  let low_i2 := (barAt ohlc (i + 2)).low
  let low_i := (barAt ohlc i).low
  let high_i2 := (barAt ohlc (i + 2)).high
  if high_i < low_i2 ∧ low_i2 - high_i ≥ minGap then
    [⟨Dir.bullish, i, i + 2, low_i2 + expand, high_i - expand,
      (low_i2 - high_i) * 10000⟩]
  else if low_i > high_i2 ∧ low_i - high_i2 ≥ minGap then
    [⟨Dir.bearish, i, i + 2, low_i + expand, high_i2 - expand,
      (low_i - high_i2) * 10000⟩]
  else []

/-- `find_fvg(ohlc, params)`: scan over `range(atr_period, len(ohlc) - 2)`. -/
def find_fvg (ohlc : List Bar) (p : Params) : List FairValueGap :=
  let n := ohlc.length
  if n < p.atr_period + 3 then []
  else
    ((List.range (n - 2)).drop p.atr_period).flatMap
      (fvgAt ohlc p (calculate_atr ohlc p.atr_period))

/-! ## Liquidity grabs (smc_primitives.py, `detect_liquidity_grab`) -/

/-- The first reclaim bar `j ∈ [i+1, min(i+grab_reclaim_bars+1, n))` whose
close crosses back through the swing price. -/
def firstReclaim (ohlc : List Bar) (reclaims : ℕ → Bool) (i grb : ℕ) :
    Option ℕ :=
  (((List.range (min (i + grb + 1) ohlc.length)).drop (i + 1)).find? reclaims)

/-- The grabs contributed by one swing at scan position `i`. -/
def grabAt (ohlc : List Bar) (atr : List ℚ) (lga : ℚ) (grb : ℕ)
    (swing : SwingPoint) (i : ℕ) : List LiquidityGrab :=
  let thresh := lga * atr.getD i 0
  match swing.swing_type with
  | SwingType.high =>
      if (barAt ohlc i).high > swing.price + thresh then
        match firstReclaim ohlc
            (fun j => decide ((barAt ohlc j).close < swing.price)) i grb with
        | some j =>
            [⟨Dir.bearish, swing.index, i, swing.price, (barAt ohlc i).high,
              j - i⟩]
        | none => []
      else []
  | SwingType.low =>
      if (barAt ohlc i).low < swing.price - thresh then
        match firstReclaim ohlc
            (fun j => decide ((barAt ohlc j).close > swing.price)) i grb with
        | some j =>
            [⟨Dir.bullish, swing.index, i, swing.price, (barAt ohlc i).low,
              j - i⟩]
        | none => []
      else []

/-- `detect_liquidity_grab(ohlc, swings, liquidity_grab_atr,
grab_reclaim_bars, atr_period)`: each swing is scanned forward over
`[swing.index+1, min(swing.index+51, n))`; the inner `break` stops at the
first qualifying reclaim bar but the outer scan continues, so one swing can
produce several grabs. -/
def detect_liquidity_grab (ohlc : List Bar) (swings : List SwingPoint)
    (lga : ℚ) (grb : ℕ) (atr_period : ℕ) : List LiquidityGrab :=
  let n := ohlc.length
  if n < atr_period + grb then []
  else
    let atr := calculate_atr ohlc atr_period
    swings.flatMap fun swing =>
      (((List.range (min (swing.index + 1 + 50) n)).drop (swing.index + 1)).flatMap
        (grabAt ohlc atr lga grb swing))

/-! ## Signal generator (strategy.py, `SMCStrategy.generate_signals`) -/

inductive Side where
  | buy
  | sell
deriving DecidableEq, Repr

/-- One emitted signal row (`ts`, `signal`, `price`, `stop`, `tp`; the `meta`
dict carries only report strings and is not modelled). -/
structure Signal where
  ts : ℕ
  signal : Side
  price : ℚ
  stop : ℚ
  tp : ℚ
deriving DecidableEq, Repr

/-- Models the Python expression
`choch.is_bullish if hasattr(choch, "is_bullish") else False`
(strategy.py line 172).  `detect_choch` returns a plain `bool`, and Python
booleans have no attribute `is_bullish`, so `hasattr` is `False` and the
whole expression evaluates to `False` whatever `choch` is. -/
def choch_is_bullish_attr (choch : Bool) : Bool :=
  let _ := choch
  false

/-- Models `choch.is_bearish if hasattr(choch, "is_bearish") else False`
(strategy.py line 235); always `False` for the same reason. -/
def choch_is_bearish_attr (choch : Bool) : Bool :=
  let _ := choch
  false

/-- `bullish_confirm` (strategy.py lines 171-174). -/
def bullishConfirm (choch : Bool) (recent_grab : Option LiquidityGrab) : Bool :=
  choch_is_bullish_attr choch ||
    (match recent_grab with
     | some g => decide (g.type = Dir.bullish)
     | none => false)

/-- `bearish_confirm` (strategy.py lines 234-237). -/
def bearishConfirm (choch : Bool) (recent_grab : Option LiquidityGrab) : Bool :=
  choch_is_bearish_attr choch ||
    (match recent_grab with
     | some g => decide (g.type = Dir.bearish)
     | none => false)

/-- Loop state of the signal loop: `last_signal_bar` and the accumulated
signal rows. -/
structure SigState where
  last_signal_bar : ℤ
  signals : List Signal
deriving DecidableEq, Repr

/-- The first active bullish order block whose interval contains the bar's
low (strategy.py lines 179-182). -/
def obPickBull (order_blocks : List OrderBlock) (i : ℕ) (low : ℚ) :
    Option OrderBlock :=
  order_blocks.find? fun ob =>
    decide (ob.type = Dir.bullish) && decide (ob.end_idx < i) &&
    decide (ob.price_bottom ≤ low) && decide (low ≤ ob.price_top)

def fvgPickBull (fvgs : List FairValueGap) (i : ℕ) (low : ℚ) :
    Option FairValueGap :=
  fvgs.find? fun f =>
    decide (f.type = Dir.bullish) && decide (f.end_idx < i) &&
    decide (f.gap_bottom ≤ low) && decide (low ≤ f.gap_top)

def obPickBear (order_blocks : List OrderBlock) (i : ℕ) (high : ℚ) :
    Option OrderBlock :=
  order_blocks.find? fun ob =>
    decide (ob.type = Dir.bearish) && decide (ob.end_idx < i) &&
    decide (ob.price_bottom ≤ high) && decide (high ≤ ob.price_top)

def fvgPickBear (fvgs : List FairValueGap) (i : ℕ) (high : ℚ) :
    Option FairValueGap :=
  fvgs.find? fun f =>
    decide (f.type = Dir.bearish) && decide (f.end_idx < i) &&
    decide (f.gap_bottom ≤ high) && decide (high ≤ f.gap_top)

/-- The buy signal built from an order block (strategy.py lines 183-201). -/
def buyFromOb (i : ℕ) (price low atr_now rr : ℚ) (ob : OrderBlock) : Signal :=
  let entry := price
  let stop := min ob.price_bottom low - 3 / 10 * atr_now
  let risk := entry - stop
  ⟨i, Side.buy, entry, stop, entry + risk * rr⟩

/-- The buy signal built from a fair value gap (lines 209-228). -/
def buyFromFvg (i : ℕ) (price atr_now rr : ℚ) (f : FairValueGap) : Signal :=
  let entry := price
  let stop := f.gap_bottom - 3 / 10 * atr_now
  let risk := entry - stop
  ⟨i, Side.buy, entry, stop, entry + risk * rr⟩

/-- The sell signal built from an order block (lines 244-263). -/
def sellFromOb (i : ℕ) (price high atr_now rr : ℚ) (ob : OrderBlock) : Signal :=
  let entry := price
  let stop := max ob.price_top high + 3 / 10 * atr_now
  let risk := stop - entry
  ⟨i, Side.sell, entry, stop, entry - risk * rr⟩

/-- The sell signal built from a fair value gap (lines 270-289). -/
def sellFromFvg (i : ℕ) (price atr_now rr : ℚ) (f : FairValueGap) : Signal :=
  let entry := price
  let stop := f.gap_top + 3 / 10 * atr_now
  let risk := stop - entry
  ⟨i, Side.sell, entry, stop, entry - risk * rr⟩

/-- The bullish-context zone scans: the order-block loop, then —
unconditionally, whether or not an order-block signal was just emitted —
the FVG loop (the `break` of the source only leaves the inner `for`). -/
def scanBull (order_blocks : List OrderBlock) (fvgs : List FairValueGap)
    (i : ℕ) (price low atr_now rr : ℚ) (st : SigState) : SigState :=
  let st1 :=
    match obPickBull order_blocks i low with
    | some ob => ⟨(i : ℤ), st.signals ++ [buyFromOb i price low atr_now rr ob]⟩
    | none => st
  match fvgPickBull fvgs i low with
  | some f => ⟨(i : ℤ), st1.signals ++ [buyFromFvg i price atr_now rr f]⟩
  | none => st1

def scanBear (order_blocks : List OrderBlock) (fvgs : List FairValueGap)
    (i : ℕ) (price high atr_now rr : ℚ) (st : SigState) : SigState :=
  let st1 :=
    match obPickBear order_blocks i high with
    | some ob => ⟨(i : ℤ), st.signals ++ [sellFromOb i price high atr_now rr ob]⟩
    | none => st
  match fvgPickBear fvgs i high with
  | some f => ⟨(i : ℤ), st1.signals ++ [sellFromFvg i price atr_now rr f]⟩
  | none => st1

/-- One iteration of the main signal loop (strategy.py lines 144-291).
Control flow: the cooldown check skips the bar; in the bullish context
(trend bullish or ranging) a failed confirmation executes `continue`,
skipping the bearish context as well; otherwise the bearish context runs
after the bullish scans. -/
def stepSignal (p : Params) (ohlc : List Bar) (atr : List ℚ)
    (order_blocks : List OrderBlock) (fvgs : List FairValueGap)
    (grabs : List LiquidityGrab) (i : ℕ) (st : SigState) : SigState :=
  if (i : ℤ) - st.last_signal_bar < 5 then st
  else
    let slice := ohlc.take (i + 1)
    let price := (barAt ohlc i).close
    let high := (barAt ohlc i).high
    let low := (barAt ohlc i).low
    let atr_now := atr.getD i 0
    let ms := detect_market_structure slice p.lookback
    let trend := ms.trend
    let choch := detect_choch slice ms.swings (1 / 2) 14
    let recent_grab := grabs.find? fun g => decide (g.end_idx = i)
    let go2 := fun (stx : SigState) =>
      if trend = TrendDirection.bearish ∨ trend = TrendDirection.ranging then
        if bearishConfirm choch recent_grab then
          scanBear order_blocks fvgs i price high atr_now p.risk_reward stx
        else stx
      else stx
    if trend = TrendDirection.bullish ∨ trend = TrendDirection.ranging then
      if bullishConfirm choch recent_grab then
        go2 (scanBull order_blocks fvgs i price low atr_now p.risk_reward st)
      else st
    else go2 st

/-- The warm-up length `min_bars = max(lookback, atr_period) + 10`. -/
def minBars (p : Params) : ℕ :=
  max p.lookback p.atr_period + 10

/-- The main signal loop over the evaluation bar indices. -/
def sigLoop (p : Params) (ohlc : List Bar) (atr : List ℚ)
    (order_blocks : List OrderBlock) (fvgs : List FairValueGap)
    (grabs : List LiquidityGrab) : List ℕ → SigState → SigState
  | [], st => st
  | i :: rest, st =>
      sigLoop p ohlc atr order_blocks fvgs grabs rest
        (stepSignal p ohlc atr order_blocks fvgs grabs i st)

/-- `SMCStrategy.generate_signals(ohlc)`. -/
def generate_signals (p : Params) (ohlc : List Bar) : List Signal :=
  if ohlc.length < minBars p then []
  else
    let atr := calculate_atr ohlc p.atr_period
    let order_blocks :=
      if p.use_order_blocks then find_order_blocks ohlc p else []
    let fvgs := if p.use_fvg then find_fvg ohlc p else []
    let grabs :=
      if p.use_liquidity_grabs then
        detect_liquidity_grab ohlc
          (detect_market_structure ohlc p.lookback).swings
          p.liquidity_grab_atr 3 p.atr_period
      else []
    (sigLoop p ohlc atr order_blocks fvgs grabs
      ((List.range ohlc.length).drop (minBars p)) ⟨-9999, []⟩).signals

/-! ## Order simulator (simulator.py, `OrderSimulator`) -/

/-- Backtester configuration: the constructor arguments of `Backtester`
(the `OrderSimulator` is built from `commission`, `slippage`, `spread`). -/
structure RunConfig where
  initial_balance : ℚ
  commission : ℚ
  slippage : ℚ
  spread : ℚ
  position_size : ℚ
  max_positions : ℕ
  instrument_multiplier : ℚ
deriving DecidableEq, Repr

/-- `OrderSimulator.simulate_fill(side, price, add_randomness)`.  `draw`
models the value of `random.uniform(0.5, 1.5)` pulled from Python's shared
global `random` module at this call; it is only consulted when
`add_randomness` is true offsetting `slippage *= random.uniform(0.5, 1.5)`. -/
def simulate_fill (cfg : RunConfig) (side : Side) (price : ℚ)
    (add_randomness : Bool) (draw : ℚ) : ℚ :=
  let slippage := if add_randomness then cfg.slippage * draw else cfg.slippage
  match side with
  | Side.buy => price + slippage + cfg.spread / 2
  | Side.sell => price - slippage - cfg.spread / 2

/-- `OrderSimulator.calculate_commission(price, size)`. -/
def calculate_commission (cfg : RunConfig) (price size : ℚ) : ℚ :=
  cfg.commission * price * size

/-! ## Backtester (backtester.py) -/

inductive ExitReason where
  | stop_loss
  | take_profit
  | end_of_data
  | signal_exit
deriving DecidableEq, Repr

/-- An open position (the dict built in `_enter_position`). -/
structure Position where
  side : Side
  entry_ts : ℕ
  entry_price : ℚ
  size : ℚ
  stop : ℚ
  tp : ℚ
  commission : ℚ
  instrument_multiplier : ℚ
  risk_amount : ℚ
  risk_pct : ℚ
deriving DecidableEq, Repr

/-- A completed `Trade` record. -/
structure Trade where
  index : ℕ
  entry_ts : ℕ
  exit_ts : ℕ
  side : Side
  entry_price : ℚ
  exit_price : ℚ
  size : ℚ
  pnl : ℚ
  fees : ℚ
  cum_equity : ℚ
  exit_reason : ExitReason
  entry_balance : ℚ
  exit_balance : ℚ
  risk_amount : ℚ
  risk_pct : ℚ
  max_drawdown_at_exit : ℚ
deriving DecidableEq, Repr

/-- One point of the equity curve. -/
structure CurvePoint where
  time : ℕ
  equity : ℚ
deriving DecidableEq, Repr

/-- Running state of `Backtester.run`: balance, mark-to-market equity, the
open-position list, the trade ledger, the equity-curve points, and the
number of random draws consumed so far. -/
structure BtState where
  balance : ℚ
  equity : ℚ
  open_positions : List Position
  trades : List Trade
  curve : List CurvePoint
  rng : ℕ
deriving DecidableEq, Repr

/-- `Backtester._calculate_open_pnl(bar)`. -/
def calculate_open_pnl (positions : List Position) (bar : Bar) : ℚ :=
  positions.foldl
    (fun acc pos =>
      let diff := match pos.side with
        | Side.buy => bar.close - pos.entry_price
        | Side.sell => pos.entry_price - bar.close
      acc + diff * pos.size * pos.instrument_multiplier)
    0

def Side.opposite : Side → Side
  | Side.buy => Side.sell
  | Side.sell => Side.buy

/-- Inner scan for `ddMin`: running maximum and running minimum of the
drawdown series. -/
def ddMinGo (runMax acc : ℚ) : List ℚ → ℚ
  | [] => acc
  | x :: xs =>
      let m := max runMax x
      ddMinGo m (min acc (x - m)) xs

/-- `dd.min()` over `es - es.cummax()` for a non-empty equity list, else 0
(the drawdown snapshot taken inside `_exit_position`). -/
def ddMin : List ℚ → ℚ
  | [] => 0
  | e :: rest => ddMinGo e 0 rest

/-- `Backtester._exit_position(position, bar, ts, reason)`.  Stop-loss and
take-profit exits settle at the stored stop/target price; every other
reason goes through the fill simulator on the bar's close (consuming one
random draw). -/
def exit_position (cfg : RunConfig) (stream : ℕ → ℚ) (pos : Position)
    (bar : Bar) (ts : ℕ) (reason : ExitReason) (st : BtState) : BtState :=
  let entry_balance := st.balance + calculate_open_pnl st.open_positions bar
  let fillData : ℚ × ℕ :=
    match reason with
    | ExitReason.stop_loss => (pos.stop, st.rng)
    | ExitReason.take_profit => (pos.tp, st.rng)
    | _ => (simulate_fill cfg pos.side.opposite bar.close true (stream st.rng),
            st.rng + 1)
  let exit_price := fillData.1
  let pnl0 := match pos.side with
    | Side.buy => (exit_price - pos.entry_price) * pos.size * pos.instrument_multiplier
    | Side.sell => (pos.entry_price - exit_price) * pos.size * pos.instrument_multiplier
  let exit_commission := calculate_commission cfg exit_price pos.size
  let pnl := pnl0 - exit_commission
  let balance' := st.balance + pnl
  let max_dd := if st.curve.isEmpty then 0 else ddMin (st.curve.map CurvePoint.equity)
  let trade : Trade :=
    { index := st.trades.length
      entry_ts := pos.entry_ts
      exit_ts := ts
      side := pos.side
      entry_price := pos.entry_price
      exit_price := exit_price
      size := pos.size
      pnl := pnl
      fees := pos.commission + exit_commission
      cum_equity := balance'
      exit_reason := reason
      entry_balance := entry_balance
      exit_balance := balance'
      risk_amount := pos.risk_amount
      risk_pct := pos.risk_pct
      max_drawdown_at_exit := |max_dd| }
  { st with
    balance := balance'
    open_positions := st.open_positions.erase pos
    trades := st.trades ++ [trade]
    rng := fillData.2 }

/-- The per-position exit test of `_check_exits`: an `if/elif` chain, so at
most one reason fires and stop-loss is tested before take-profit. -/
def exit_decision (pos : Position) (bar : Bar) : Option ExitReason :=
  if pos.side = Side.buy ∧ bar.low ≤ pos.stop then some ExitReason.stop_loss
  else if pos.side = Side.sell ∧ bar.high ≥ pos.stop then some ExitReason.stop_loss
  else if pos.side = Side.buy ∧ bar.high ≥ pos.tp then some ExitReason.take_profit
  else if pos.side = Side.sell ∧ bar.low ≤ pos.tp then some ExitReason.take_profit
  else none

/-- `Backtester._check_exits(bar, ts)`: iterate over a copy
(`self.open_positions[:]`) of the open positions, exiting each one whose
condition fires. -/
def checkExitsGo (cfg : RunConfig) (stream : ℕ → ℚ) (bar : Bar) (ts : ℕ) :
    List Position → BtState → BtState
  | [], st => st
  | pos :: rest, st =>
      match exit_decision pos bar with
      | some r =>
          checkExitsGo cfg stream bar ts rest
            (exit_position cfg stream pos bar ts r st)
      | none => checkExitsGo cfg stream bar ts rest st

def check_exits (cfg : RunConfig) (stream : ℕ → ℚ) (bar : Bar) (ts : ℕ)
    (st : BtState) : BtState :=
  checkExitsGo cfg stream bar ts st.open_positions st

/-- `Backtester._enter_position(signal, bar, ts)`.  The fill simulator is
called (and a random draw consumed) before any of the rejection checks; a
rejected signal therefore changes only the draw counter. -/
def enter_position (cfg : RunConfig) (stream : ℕ → ℚ) (sig : Signal)
    (ts : ℕ) (st : BtState) : BtState :=
  let fill := simulate_fill cfg sig.signal sig.price true (stream st.rng)
  let st1 := { st with rng := st.rng + 1 }
  let stop_distance := |fill - sig.stop|
  if stop_distance ≤ 0 then st1
  else
    let sizing : Option (ℚ × ℚ) :=
      if cfg.position_size ≤ 1 then
        let risk_amount := st.balance * cfg.position_size
        let risk_per_unit := stop_distance * cfg.instrument_multiplier
        if risk_per_unit ≤ 0 then none
        else some (risk_amount / risk_per_unit, risk_amount)
      else
        some (cfg.position_size,
          stop_distance * cfg.position_size * cfg.instrument_multiplier)
    match sizing with
    | none => st1
    | some sz =>
        let size := sz.1
        let risk_amount := sz.2
        if size ≤ 0 then st1
        else
          let commission_cost := calculate_commission cfg fill size
          let balance' := st.balance - commission_cost
          let pos : Position :=
            { side := sig.signal
              entry_ts := ts
              entry_price := fill
              size := size
              stop := sig.stop
              tp := sig.tp
              commission := commission_cost
              instrument_multiplier := cfg.instrument_multiplier
              risk_amount := risk_amount
              risk_pct :=
                if balance' > 0 then
                  risk_amount / max balance' (1 / 1000000000000)
                else 0 }
          { st1 with
            balance := balance'
            open_positions := st.open_positions ++ [pos] }

/-- The entry loop of `Backtester.run` over the signal rows timestamped at
this bar, with the `break` once `max_positions` is reached. -/
def tryEntries (cfg : RunConfig) (stream : ℕ → ℚ) (ts : ℕ) :
    List Signal → BtState → BtState
  | [], st => st
  | r :: rest, st =>
      if st.open_positions.length ≥ cfg.max_positions then st
      else tryEntries cfg stream ts rest (enter_position cfg stream r ts st)

/-- One iteration of the main bar loop of `Backtester.run`: exits, then
entries (under the `max_positions` cap), then the mark-to-market equity
update and equity-curve append. -/
def bar_step (cfg : RunConfig) (ohlc : List Bar) (sigs : List Signal)
    (stream : ℕ → ℚ) (i : ℕ) (st : BtState) : BtState :=
  let bar := barAt ohlc i
  let st1 := check_exits cfg stream bar i st
  let st2 :=
    if st1.open_positions.length < cfg.max_positions then
      tryEntries cfg stream i (sigs.filter fun s => s.ts = i) st1
    else st1
  let equity := st2.balance + calculate_open_pnl st2.open_positions bar
  { st2 with equity := equity, curve := st2.curve ++ [⟨i, equity⟩] }

/-- The bar loop with the depletion early-stop
(`if self.balance <= 0 or self.equity <= 0: break`). -/
def runLoop (cfg : RunConfig) (ohlc : List Bar) (sigs : List Signal)
    (stream : ℕ → ℚ) : List ℕ → BtState → BtState
  | [], st => st
  | i :: rest, st =>
      let st' := bar_step cfg ohlc sigs stream i st
      if st'.balance ≤ 0 ∨ st'.equity ≤ 0 then st'
      else runLoop cfg ohlc sigs stream rest st'

/-- The force-close epilogue of `Backtester.run`: every position still open
is exited with reason `end_of_data` against the dataset's final bar
(`ohlc.iloc[-1]`, `ohlc.index[-1]`), iterating over a copy of the list. -/
def forceCloseGo (cfg : RunConfig) (stream : ℕ → ℚ) (bar : Bar) (ts : ℕ) :
    List Position → BtState → BtState
  | [], st => st
  | pos :: rest, st =>
      forceCloseGo cfg stream bar ts rest
        (exit_position cfg stream pos bar ts ExitReason.end_of_data st)

def force_close (cfg : RunConfig) (stream : ℕ → ℚ) (ohlc : List Bar)
    (st : BtState) : BtState :=
  forceCloseGo cfg stream (barAt ohlc (ohlc.length - 1)) (ohlc.length - 1)
    st.open_positions st

/-- The initial state set up at the top of `Backtester.run` (and by the
constructor): balance and equity at `initial_balance`, everything else
empty. -/
def initState (cfg : RunConfig) : BtState :=
  { balance := cfg.initial_balance
    equity := cfg.initial_balance
    open_positions := []
    trades := []
    curve := []
    rng := 0 }

/-- `Backtester.run(ohlc)` given the signal rows produced by the strategy:
the empty-signal early return (`_empty_result`: no trades, empty equity
curve), then the bar loop over every bar index, then the force-close. -/
def run (cfg : RunConfig) (ohlc : List Bar) (sigs : List Signal)
    (stream : ℕ → ℚ) : BtState :=
  if sigs.isEmpty then initState cfg
  else
    force_close cfg stream ohlc
      (runLoop cfg ohlc sigs stream (List.range ohlc.length) (initState cfg))

/-- `Backtester.run` composed with `SMCStrategy.generate_signals`, as the
source's `run` calls `self.strategy.generate_signals(ohlc)` itself. -/
def run_strategy (cfg : RunConfig) (p : Params) (ohlc : List Bar)
    (stream : ℕ → ℚ) : BtState :=
  run cfg ohlc (generate_signals p ohlc) stream

/-! ## Metrics (metrics.py, `calculate_metrics`)

Only the trade-statistics part is embedded (counts, win rate, gross
profit/loss, profit factor, expectancy, net profit, final equity).  The
drawdown/Sharpe/Calmar/monthly computations depend on calendar resampling
and are not needed by any claim. -/

/-- A Python float that may be `np.inf` (the value
`gross_profit / gross_loss` takes when `gross_loss == 0` and wins exist). -/
inductive PFloat where
  | finite (q : ℚ)
  | inf
deriving DecidableEq, Repr

/-- `np.isfinite`. -/
def PFloat.isfinite : PFloat → Bool
  | PFloat.finite _ => true
  | PFloat.inf => false

/-- The fields of `MetricsResult` covered by the embedding. -/
structure MetricsResult where
  net_profit : ℚ
  total_return_pct : ℚ
  win_rate : ℚ
  profit_factor : ℚ
  expectancy : ℚ
  total_trades : ℕ
  winning_trades : ℕ
  losing_trades : ℕ
  avg_win : ℚ
  avg_loss : ℚ
  largest_win : ℚ
  largest_loss : ℚ
  final_equity : ℚ
deriving DecidableEq, Repr

def gross_profit_of (pnls : List ℚ) : ℚ :=
  ((pnls.filter fun x => 0 < x).foldl (· + ·) 0)

def gross_loss_of (pnls : List ℚ) : ℚ :=
  |((pnls.filter fun x => x < 0).foldl (· + ·) 0)|

/-- `profit_factor = (gross_profit / gross_loss) if gross_loss > 0 else
(np.inf if gross_profit > 0 else 0.0)` — the raw value, before the
`np.isfinite` guard of the returned record. -/
def profit_factor_raw (pnls : List ℚ) : PFloat :=
  if gross_loss_of pnls > 0 then
    PFloat.finite (gross_profit_of pnls / gross_loss_of pnls)
  else if gross_profit_of pnls > 0 then PFloat.inf
  else PFloat.finite 0

/-- `profit_factor if np.isfinite(profit_factor) else 0.0`. -/
def profit_factor_reported (pnls : List ℚ) : ℚ :=
  match profit_factor_raw pnls with
  | PFloat.finite q => q
  | PFloat.inf => 0

/-- `calculate_metrics(trades_df, equity_series, initial_balance)` over the
trades' pnl column. -/
def calculate_metrics (pnls : List ℚ) (equity : List ℚ)
    (initial_balance : ℚ) : MetricsResult :=
  let final_equity := if equity.isEmpty then initial_balance else lastQ equity
  if pnls.isEmpty then
    { net_profit := final_equity - initial_balance
      total_return_pct :=
        if initial_balance ≠ 0 then
          (final_equity - initial_balance) / initial_balance * 100 else 0
      win_rate := 0
      profit_factor := 0
      expectancy := 0
      total_trades := 0
      winning_trades := 0
      losing_trades := 0
      avg_win := 0
      avg_loss := 0
      largest_win := 0
      largest_loss := 0
      final_equity := final_equity }
  else
    let wins := pnls.filter fun x => 0 < x
    let losses := pnls.filter fun x => x < 0
    let total_trades := pnls.length
    { net_profit := pnls.foldl (· + ·) 0
      total_return_pct :=
        if initial_balance ≠ 0 then
          (final_equity - initial_balance) / initial_balance * 100 else 0
      win_rate := (wins.length : ℚ) / (total_trades : ℚ) * 100
      profit_factor := profit_factor_reported pnls
      expectancy := pnls.foldl (· + ·) 0 / (total_trades : ℚ)
      total_trades := total_trades
      winning_trades := wins.length
      losing_trades := losses.length
      avg_win := if wins.isEmpty then 0 else wins.foldl (· + ·) 0 / (wins.length : ℚ)
      avg_loss := if losses.isEmpty then 0
        else losses.foldl (· + ·) 0 / (losses.length : ℚ)
      largest_win := if wins.isEmpty then 0 else maxQ (wins.getD 0 0) wins
      largest_loss := if losses.isEmpty then 0 else minQ (losses.getD 0 0) losses
      final_equity := final_equity }

/-! ## Statement-side helper definitions -/

/-- The per-bar/per-direction filter used to count emitted signals. -/
def sigCountPred (i : ℕ) (side : Side) : Signal → Bool :=
  fun s => decide (s.ts = i) && decide (s.signal = side)

/-- The ATR value consulted by `find_fvg` at scan position `i`. -/
def fvgAtrAt (ohlc : List Bar) (p : Params) (i : ℕ) : ℚ :=
  (calculate_atr ohlc p.atr_period).getD i 0

/-- The bullish three-bar imbalance condition of `find_fvg` at `i`:
`high[i] < low[i+2]` with a gap of at least `min_gap_atr * ATR`. -/
def fvgBullCond (ohlc : List Bar) (p : Params) (i : ℕ) : Prop :=
  (barAt ohlc i).high < (barAt ohlc (i + 2)).low ∧
  (barAt ohlc (i + 2)).low - (barAt ohlc i).high ≥
    p.min_gap_atr * fvgAtrAt ohlc p i

/-- The bearish mirror condition. -/
def fvgBearCond (ohlc : List Bar) (p : Params) (i : ℕ) : Prop :=
  (barAt ohlc i).low > (barAt ohlc (i + 2)).high ∧
  (barAt ohlc i).low - (barAt ohlc (i + 2)).high ≥
    p.min_gap_atr * fvgAtrAt ohlc p i

/-- The bullish gap record built by `find_fvg`: both boundaries moved
outward by `fvg_expand_atr * ATR`. -/
def fvgBullRecord (ohlc : List Bar) (p : Params) (i : ℕ) : FairValueGap :=
  ⟨Dir.bullish, i, i + 2,
   (barAt ohlc (i + 2)).low + p.fvg_expand_atr * fvgAtrAt ohlc p i,
   (barAt ohlc i).high - p.fvg_expand_atr * fvgAtrAt ohlc p i,
   ((barAt ohlc (i + 2)).low - (barAt ohlc i).high) * 10000⟩

/-- The bearish gap record built by `find_fvg`. -/
def fvgBearRecord (ohlc : List Bar) (p : Params) (i : ℕ) : FairValueGap :=
  ⟨Dir.bearish, i, i + 2,
   (barAt ohlc i).low + p.fvg_expand_atr * fvgAtrAt ohlc p i,
   (barAt ohlc (i + 2)).high - p.fvg_expand_atr * fvgAtrAt ohlc p i,
   ((barAt ohlc i).low - (barAt ohlc (i + 2)).high) * 10000⟩

/-! ## Concrete inputs used by witnesses and counterexamples -/

/-- A 28-bar series: a low-priced opening block (bars 0-3) that leaves a
bullish order block `[48, 52]` and a bullish fair value gap `[50, 60]`, a
high plateau (bars 4-24) with a swing low of 90 at bar 14, a drop back to 50
(bars 25-26, bar 26 a zero-range bar), and a reclaim bar 27. -/
def ohlcZ : List Bar :=
  [⟨52, 56, 47, 48⟩, ⟨97/2, 50, 48, 99/2⟩, ⟨52, 55, 51, 54⟩,
   ⟨61, 65, 60, 64⟩] ++
  ((List.range 21).map fun j =>
    if j = 10 then ⟨100, 110, 90, 105⟩ else ⟨100, 110, 100, 105⟩) ++
  [⟨60, 60, 50, 50⟩, ⟨50, 50, 50, 50⟩, ⟨95, 120, 92, 100⟩]

/-- Parameters exercising the FVG path only (`use_order_blocks = False`),
with `atr_period = 1` (so the ATR equals the current true range) and zero
gap/expansion thresholds. -/
def paramsC5 : Params :=
  { lookback := 10, risk_reward := 2, atr_period := 1, min_impulse_bars := 2
    min_impulse_atr := 0, ob_expansion_atr := 0, min_gap_atr := 0
    fvg_expand_atr := 0, liquidity_grab_atr := 1, max_age_bars := 100
    strict := true, use_order_blocks := false, use_fvg := true
    use_liquidity_grabs := true }

/-- Same as `paramsC5` but with order blocks enabled. -/
def paramsC2 : Params :=
  { paramsC5 with use_order_blocks := true }

/-- A 37-bar series whose full prefix carries a bullish market structure
(swing lows 100@10 and 105@21, swing highs 150@15 and 155@26) and whose last
bar crashes below the last swing low, firing a ChoCH with no liquidity grab
anywhere. -/
def ohlcC1 : List Bar :=
  (List.range 37).map fun i =>
    if i = 10 then ⟨112, 120, 100, 115⟩
    else if i = 15 then ⟨115, 150, 110, 118⟩
    else if i = 21 then ⟨112, 120, 105, 115⟩
    else if i = 26 then ⟨115, 155, 110, 120⟩
    else if i = 36 then ⟨55, 55, 50, 50⟩
    else ⟨112, 120, 110, 115⟩

def paramsC1 : Params :=
  { lookback := 10, risk_reward := 2, atr_period := 14, min_impulse_bars := 3
    min_impulse_atr := 2, ob_expansion_atr := 1/2, min_gap_atr := 1/2
    fvg_expand_atr := 1/5, liquidity_grab_atr := 1, max_age_bars := 100
    strict := true, use_order_blocks := true, use_fvg := true
    use_liquidity_grabs := true }

/-- A constant draw stream (every `random.uniform(0.5, 1.5)` call returns 1,
i.e. the mean draw). -/
def streamOne : ℕ → ℚ := fun _ => 1

/-- A frictionless configuration (no commission, slippage or spread) with a
fixed position size of 10 units, on a balance of 100. -/
def cfgC3 : RunConfig :=
  { initial_balance := 100, commission := 0, slippage := 0, spread := 0
    position_size := 10, max_positions := 1, instrument_multiplier := 1 }

/-- Five bars whose middle bar crashes to 50 and whose final bar closes at
70. -/
def ohlcC3 : List Bar :=
  [⟨100, 101, 99, 100⟩, ⟨100, 101, 99, 100⟩, ⟨45, 55, 40, 50⟩,
   ⟨100, 101, 99, 100⟩, ⟨70, 75, 65, 70⟩]

/-- One buy signal at bar 1 whose stop and target are far out of reach, so
the position stays open past the depletion bar. -/
def sigsC3 : List Signal :=
  [⟨1, Side.buy, 100, -1000, 10000⟩]

/-- Slippage-only configuration for the determinism analysis. -/
def cfgC8 : RunConfig :=
  { initial_balance := 10000, commission := 0, slippage := 1/100, spread := 0
    position_size := 2, max_positions := 1, instrument_multiplier := 1 }

def ohlcC8 : List Bar :=
  [⟨100, 101, 99, 100⟩, ⟨100, 101, 99, 100⟩, ⟨100, 101, 99, 100⟩]

def sigsC8 : List Signal :=
  [⟨1, Side.buy, 100, 90, 200⟩]

/-- A second draw stream: every call returns 6/5 (still inside the
`[0.5, 1.5]` support of `random.uniform`). -/
def streamB : ℕ → ℚ := fun _ => 6/5

/-- Five bars with two upward three-bar imbalances. -/
def ohlcC6 : List Bar :=
  [⟨100, 101, 99, 100⟩, ⟨100, 102, 98, 101⟩, ⟨100, 103, 97, 102⟩,
   ⟨110, 115, 108, 112⟩, ⟨109, 113, 107, 110⟩]

/-- FVG parameters with a full-ATR inward/outward expansion
(`fvg_expand_atr = 1`) and no gap threshold. -/
def paramsC6 : Params :=
  { lookback := 10, risk_reward := 2, atr_period := 1, min_impulse_bars := 3
    min_impulse_atr := 2, ob_expansion_atr := 1/2, min_gap_atr := 0
    fvg_expand_atr := 1, liquidity_grab_atr := 1, max_age_bars := 100
    strict := true, use_order_blocks := true, use_fvg := true
    use_liquidity_grabs := true }

/-! ## Infrastructure lemmas -/

theorem mem_drop_range_iff {n k i : ℕ} :
    i ∈ (List.range n).drop k ↔ k ≤ i ∧ i < n := by
  constructor
  · intro h
    rw [List.mem_iff_getElem] at h
    obtain ⟨j, hj, hval⟩ := h
    rw [List.getElem_drop, List.getElem_range] at hval
    subst hval
    refine ⟨Nat.le_add_right _ _, ?_⟩
    have := hj
    simp [List.length_drop, List.length_range] at this
    omega
  · rintro ⟨hk, hn⟩
    rw [List.mem_iff_getElem]
    refine ⟨i - k, ?_, ?_⟩
    · simp [List.length_drop, List.length_range]
      omega
    · rw [List.getElem_drop, List.getElem_range]
      omega

/-- The bullish zone scans append at most two signals, all buys stamped with
the evaluation bar. -/
theorem scanBull_signals (obs : List OrderBlock) (fvgs : List FairValueGap)
    (i : ℕ) (price low atr rr : ℚ) (st : SigState) :
    ∃ l, (scanBull obs fvgs i price low atr rr st).signals = st.signals ++ l ∧
      (∀ s ∈ l, s.ts = i ∧ s.signal = Side.buy) ∧ l.length ≤ 2 := by
  unfold scanBull
  cases h1 : obPickBull obs i low <;> cases h2 : fvgPickBull fvgs i low
  · exact ⟨[], by simp, by simp, by simp⟩
  · case none.some f =>
      exact ⟨[buyFromFvg i price atr rr f], by simp,
        by simp [buyFromFvg], by simp⟩
  · case some.none ob =>
      exact ⟨[buyFromOb i price low atr rr ob], by simp,
        by simp [buyFromOb], by simp⟩
  · case some.some ob f =>
      exact ⟨[buyFromOb i price low atr rr ob, buyFromFvg i price atr rr f],
        by simp, by simp [buyFromOb, buyFromFvg], by simp⟩

theorem scanBear_signals (obs : List OrderBlock) (fvgs : List FairValueGap)
    (i : ℕ) (price high atr rr : ℚ) (st : SigState) :
    ∃ l, (scanBear obs fvgs i price high atr rr st).signals = st.signals ++ l ∧
      (∀ s ∈ l, s.ts = i ∧ s.signal = Side.sell) ∧ l.length ≤ 2 := by
  unfold scanBear
  cases h1 : obPickBear obs i high <;> cases h2 : fvgPickBear fvgs i high
  · exact ⟨[], by simp, by simp, by simp⟩
  · case none.some f =>
      exact ⟨[sellFromFvg i price atr rr f], by simp,
        by simp [sellFromFvg], by simp⟩
  · case some.none ob =>
      exact ⟨[sellFromOb i price high atr rr ob], by simp,
        by simp [sellFromOb], by simp⟩
  · case some.some ob f =>
      exact ⟨[sellFromOb i price high atr rr ob, sellFromFvg i price atr rr f],
        by simp, by simp [sellFromOb, sellFromFvg], by simp⟩

/-- One signal-loop iteration appends a block of buys (at most two) followed
by a block of sells (at most two), all stamped with the evaluation bar. -/
theorem stepSignal_signals (p : Params) (ohlc : List Bar) (atr : List ℚ)
    (obs : List OrderBlock) (fvgs : List FairValueGap)
    (grabs : List LiquidityGrab) (i : ℕ) (st : SigState) :
    ∃ lb lr,
      (stepSignal p ohlc atr obs fvgs grabs i st).signals =
        st.signals ++ lb ++ lr ∧
      (∀ s ∈ lb, s.ts = i ∧ s.signal = Side.buy) ∧ lb.length ≤ 2 ∧
      (∀ s ∈ lr, s.ts = i ∧ s.signal = Side.sell) ∧ lr.length ≤ 2 := by
  unfold stepSignal
  split
  · exact ⟨[], [], by simp, by simp, by simp, by simp, by simp⟩
  · dsimp only
    split
    · split
      · obtain ⟨lb, hb, hbmem, hblen⟩ :=
          scanBull_signals obs fvgs i (barAt ohlc i).close (barAt ohlc i).low
            (atr.getD i 0) p.risk_reward st
        split
        · split
          · obtain ⟨lr, hr, hrmem, hrlen⟩ :=
              scanBear_signals obs fvgs i (barAt ohlc i).close
                (barAt ohlc i).high (atr.getD i 0) p.risk_reward _
            exact ⟨lb, lr, by rw [hr, hb, List.append_assoc], hbmem, hblen,
              hrmem, hrlen⟩
          · exact ⟨lb, [], by simpa using hb, hbmem, hblen, by simp, by simp⟩
        · exact ⟨lb, [], by simpa using hb, hbmem, hblen, by simp, by simp⟩
      · exact ⟨[], [], by simp, by simp, by simp, by simp, by simp⟩
    · split
      · split
        · obtain ⟨lr, hr, hrmem, hrlen⟩ :=
            scanBear_signals obs fvgs i (barAt ohlc i).close
              (barAt ohlc i).high (atr.getD i 0) p.risk_reward st
          exact ⟨[], lr, by simpa using hr, by simp, by simp, hrmem, hrlen⟩
        · exact ⟨[], [], by simp, by simp, by simp, by simp, by simp⟩
      · exact ⟨[], [], by simp, by simp, by simp, by simp, by simp⟩

theorem filter_tsside_le (l : List Signal) (j : ℕ) (sd : Side)
    (h : ∀ s ∈ l, s.ts = j ∧ s.signal = sd) (i : ℕ) (side : Side) :
    (l.filter (sigCountPred i side)).length ≤
      if i = j ∧ side = sd then l.length else 0 := by
  split
  · exact List.length_filter_le _ _
  · case isFalse hne =>
      have : l.filter (sigCountPred i side) = [] := by
        rw [List.filter_eq_nil_iff]
        intro s hs
        obtain ⟨hts, hsd⟩ := h s hs
        simp [sigCountPred, hts, hsd]
        intro hi hside
        exact hne ⟨hi ▸ rfl, hside ▸ rfl⟩
      simp [this]

/-- The signal loop only appends rows, stamped with indices of the loop's
index list. -/
theorem sigLoop_signals (p : Params) (ohlc : List Bar) (atr : List ℚ)
    (obs : List OrderBlock) (fvgs : List FairValueGap)
    (grabs : List LiquidityGrab) :
    ∀ (is : List ℕ) (st : SigState),
      ∃ l, (sigLoop p ohlc atr obs fvgs grabs is st).signals =
          st.signals ++ l ∧ ∀ s ∈ l, s.ts ∈ is := by
  intro is
  induction is with
  | nil => exact fun st => ⟨[], by simp [sigLoop], by simp⟩
  | cons i rest ih =>
      intro st
      obtain ⟨lb, lr, hstep, hbmem, _, hrmem, _⟩ :=
        stepSignal_signals p ohlc atr obs fvgs grabs i st
      obtain ⟨l', hl', hmem'⟩ :=
        ih (stepSignal p ohlc atr obs fvgs grabs i st)
      refine ⟨lb ++ lr ++ l', ?_, ?_⟩
      · simp only [sigLoop, hl', hstep]
        simp [List.append_assoc]
      · intro s hs
        simp only [List.mem_append] at hs
        rcases hs with (hs | hs) | hs
        · simp [(hbmem s hs).1]
        · simp [(hrmem s hs).1]
        · simp [hmem' s hs]

/-- Along a duplicate-free index list, each evaluation bar contributes at
most two signals per direction. -/
theorem sigLoop_count (p : Params) (ohlc : List Bar) (atr : List ℚ)
    (obs : List OrderBlock) (fvgs : List FairValueGap)
    (grabs : List LiquidityGrab) (i : ℕ) (side : Side) :
    ∀ (is : List ℕ), is.Nodup → ∀ st : SigState,
      ((sigLoop p ohlc atr obs fvgs grabs is st).signals.filter
          (sigCountPred i side)).length ≤
        (st.signals.filter (sigCountPred i side)).length +
          (if i ∈ is then 2 else 0) := by
  intro is
  induction is with
  | nil => intro _ st; simp [sigLoop]
  | cons j rest ih =>
      intro hnd st
      obtain ⟨hj, hndrest⟩ := List.nodup_cons.mp hnd
      obtain ⟨lb, lr, hstep, hbmem, hblen, hrmem, hrlen⟩ :=
        stepSignal_signals p ohlc atr obs fvgs grabs j st
      have hrec := ih hndrest (stepSignal p ohlc atr obs fvgs grabs j st)
      have hstepcount :
          ((stepSignal p ohlc atr obs fvgs grabs j st).signals.filter
              (sigCountPred i side)).length ≤
            (st.signals.filter (sigCountPred i side)).length +
              (if i = j then 2 else 0) := by
        rw [hstep, List.filter_append, List.filter_append,
          List.length_append, List.length_append]
        have h1 := filter_tsside_le lb j Side.buy hbmem i side
        have h2 := filter_tsside_le lr j Side.sell hrmem i side
        by_cases hij : i = j
        · subst hij
          rw [if_pos rfl]
          cases side with
          | buy =>
              rw [if_pos ⟨rfl, rfl⟩] at h1
              rw [if_neg (by simp)] at h2
              omega
          | sell =>
              rw [if_pos ⟨rfl, rfl⟩] at h2
              rw [if_neg (by simp)] at h1
              omega
        · rw [if_neg hij]
          rw [if_neg (by simp [hij])] at h1
          rw [if_neg (by simp [hij])] at h2
          omega
      have hloop : (sigLoop p ohlc atr obs fvgs grabs (j :: rest) st) =
          sigLoop p ohlc atr obs fvgs grabs rest
            (stepSignal p ohlc atr obs fvgs grabs j st) := rfl
      rw [hloop]
      by_cases hij : i = j
      · subst hij
        have hnotrest : i ∉ rest := hj
        rw [if_neg hnotrest] at hrec
        rw [if_pos rfl] at hstepcount
        rw [if_pos (List.mem_cons_self i rest)]
        omega
      · have hiff : (i ∈ j :: rest) ↔ (i ∈ rest) := by simp [hij]
        rw [if_neg hij] at hstepcount
        by_cases hmem : i ∈ rest
        · rw [if_pos hmem] at hrec
          rw [if_pos (hiff.mpr hmem)]
          omega
        · rw [if_neg hmem] at hrec
          rw [if_neg (fun hc => hmem (hiff.mp hc))]
          omega

theorem exit_position_curve (cfg : RunConfig) (stream : ℕ → ℚ)
    (pos : Position) (bar : Bar) (ts : ℕ) (reason : ExitReason)
    (st : BtState) :
    (exit_position cfg stream pos bar ts reason st).curve = st.curve := rfl

theorem exit_position_open_le (cfg : RunConfig) (stream : ℕ → ℚ)
    (pos : Position) (bar : Bar) (ts : ℕ) (reason : ExitReason)
    (st : BtState) :
    (exit_position cfg stream pos bar ts reason st).open_positions.length ≤
      st.open_positions.length := by
  have : (exit_position cfg stream pos bar ts reason st).open_positions =
      st.open_positions.erase pos := rfl
  rw [this]
  exact (st.open_positions.erase_sublist pos).length_le

/-- Every exit appends exactly one trade, carrying the exit reason and
timestamp it was called with; a non-stop, non-target exit settles at the
fill simulator's price for the opposite side on the bar's close. -/
theorem exit_position_trades (cfg : RunConfig) (stream : ℕ → ℚ)
    (pos : Position) (bar : Bar) (ts : ℕ) (reason : ExitReason)
    (st : BtState) :
    ∃ t, (exit_position cfg stream pos bar ts reason st).trades =
        st.trades ++ [t] ∧
      t.exit_reason = reason ∧ t.exit_ts = ts ∧ t.side = pos.side ∧
      (reason = ExitReason.end_of_data →
        t.exit_price =
          simulate_fill cfg pos.side.opposite bar.close true (stream st.rng)) := by
  cases reason with
  | stop_loss => exact ⟨_, rfl, rfl, rfl, rfl, by simp⟩
  | take_profit => exact ⟨_, rfl, rfl, rfl, rfl, by simp⟩
  | end_of_data => exact ⟨_, rfl, rfl, rfl, rfl, fun _ => rfl⟩
  | signal_exit => exact ⟨_, rfl, rfl, rfl, rfl, by simp⟩

theorem exit_decision_reason (pos : Position) (bar : Bar) (r : ExitReason)
    (h : exit_decision pos bar = some r) :
    r = ExitReason.stop_loss ∨ r = ExitReason.take_profit := by
  unfold exit_decision at h
  split at h
  · exact Or.inl (Option.some.inj h).symm
  · split at h
    · exact Or.inl (Option.some.inj h).symm
    · split at h
      · exact Or.inr (Option.some.inj h).symm
      · split at h
        · exact Or.inr (Option.some.inj h).symm
        · exact absurd h (by simp)

theorem checkExitsGo_curve (cfg : RunConfig) (stream : ℕ → ℚ) (bar : Bar)
    (ts : ℕ) :
    ∀ (copy : List Position) (st : BtState),
      (checkExitsGo cfg stream bar ts copy st).curve = st.curve := by
  intro copy
  induction copy with
  | nil => intro st; rfl
  | cons pos rest ih =>
      intro st
      unfold checkExitsGo
      cases h : exit_decision pos bar with
      | none => exact ih st
      | some r => rw [ih, exit_position_curve]

theorem checkExitsGo_trades (cfg : RunConfig) (stream : ℕ → ℚ) (bar : Bar)
    (ts : ℕ) :
    ∀ (copy : List Position) (st : BtState),
      ∃ l, (checkExitsGo cfg stream bar ts copy st).trades =
          st.trades ++ l ∧
        ∀ t ∈ l, (t.exit_reason = ExitReason.stop_loss ∨
          t.exit_reason = ExitReason.take_profit) ∧ t.exit_ts = ts := by
  intro copy
  induction copy with
  | nil => intro st; exact ⟨[], by simp [checkExitsGo], by simp⟩
  | cons pos rest ih =>
      intro st
      unfold checkExitsGo
      cases h : exit_decision pos bar with
      | none => exact ih st
      | some r =>
          obtain ⟨t, ht, hreason, hts, _, _⟩ :=
            exit_position_trades cfg stream pos bar ts r st
          obtain ⟨l', hl', hmem'⟩ :=
            ih (exit_position cfg stream pos bar ts r st)
          refine ⟨t :: l', ?_, ?_⟩
          · rw [hl', ht]; simp
          · intro u hu
            rcases List.mem_cons.mp hu with h1 | h1
            · subst h1
              exact ⟨hreason ▸ exit_decision_reason pos bar r h, hts⟩
            · exact hmem' u h1

theorem checkExitsGo_open_le (cfg : RunConfig) (stream : ℕ → ℚ) (bar : Bar)
    (ts : ℕ) :
    ∀ (copy : List Position) (st : BtState),
      (checkExitsGo cfg stream bar ts copy st).open_positions.length ≤
        st.open_positions.length := by
  intro copy
  induction copy with
  | nil => intro st; exact le_refl _
  | cons pos rest ih =>
      intro st
      unfold checkExitsGo
      cases h : exit_decision pos bar with
      | none => exact ih st
      | some r =>
          exact le_trans (ih _) (exit_position_open_le cfg stream pos bar ts r st)

theorem check_exits_curve (cfg : RunConfig) (stream : ℕ → ℚ) (bar : Bar)
    (ts : ℕ) (st : BtState) :
    (check_exits cfg stream bar ts st).curve = st.curve :=
  checkExitsGo_curve cfg stream bar ts st.open_positions st

theorem check_exits_trades (cfg : RunConfig) (stream : ℕ → ℚ) (bar : Bar)
    (ts : ℕ) (st : BtState) :
    ∃ l, (check_exits cfg stream bar ts st).trades = st.trades ++ l ∧
      ∀ t ∈ l, (t.exit_reason = ExitReason.stop_loss ∨
        t.exit_reason = ExitReason.take_profit) ∧ t.exit_ts = ts :=
  checkExitsGo_trades cfg stream bar ts st.open_positions st

theorem check_exits_open_le (cfg : RunConfig) (stream : ℕ → ℚ) (bar : Bar)
    (ts : ℕ) (st : BtState) :
    (check_exits cfg stream bar ts st).open_positions.length ≤
      st.open_positions.length :=
  checkExitsGo_open_le cfg stream bar ts st.open_positions st

theorem enter_position_curve (cfg : RunConfig) (stream : ℕ → ℚ)
    (sig : Signal) (ts : ℕ) (st : BtState) :
    (enter_position cfg stream sig ts st).curve = st.curve := by
  unfold enter_position
  dsimp only
  split
  · rfl
  · split
    · rfl
    · split
      · rfl
      · rfl

theorem enter_position_trades (cfg : RunConfig) (stream : ℕ → ℚ)
    (sig : Signal) (ts : ℕ) (st : BtState) :
    (enter_position cfg stream sig ts st).trades = st.trades := by
  unfold enter_position
  dsimp only
  split
  · rfl
  · split
    · rfl
    · split
      · rfl
      · rfl

theorem enter_position_open (cfg : RunConfig) (stream : ℕ → ℚ)
    (sig : Signal) (ts : ℕ) (st : BtState) :
    ∃ l, (enter_position cfg stream sig ts st).open_positions =
        st.open_positions ++ l ∧ l.length ≤ 1 := by
  unfold enter_position
  dsimp only
  split
  · exact ⟨[], by simp, by simp⟩
  · split
    · exact ⟨[], by simp, by simp⟩
    · split
      · exact ⟨[], by simp, by simp⟩
      · exact ⟨[_], rfl, by simp⟩

theorem tryEntries_curve (cfg : RunConfig) (stream : ℕ → ℚ) (ts : ℕ) :
    ∀ (rows : List Signal) (st : BtState),
      (tryEntries cfg stream ts rows st).curve = st.curve := by
  intro rows
  induction rows with
  | nil => intro st; rfl
  | cons r rest ih =>
      intro st
      unfold tryEntries
      split
      · rfl
      · rw [ih, enter_position_curve]

theorem tryEntries_trades (cfg : RunConfig) (stream : ℕ → ℚ) (ts : ℕ) :
    ∀ (rows : List Signal) (st : BtState),
      (tryEntries cfg stream ts rows st).trades = st.trades := by
  intro rows
  induction rows with
  | nil => intro st; rfl
  | cons r rest ih =>
      intro st
      unfold tryEntries
      split
      · rfl
      · rw [ih, enter_position_trades]

/-- Once the cap is reached, the entry loop opens nothing more. -/
theorem tryEntries_at_cap (cfg : RunConfig) (stream : ℕ → ℚ) (ts : ℕ)
    (rows : List Signal) (st : BtState)
    (h : cfg.max_positions ≤ st.open_positions.length) :
    tryEntries cfg stream ts rows st = st := by
  cases rows with
  | nil => rfl
  | cons r rest =>
      unfold tryEntries
      rw [if_pos h]

theorem tryEntries_open_le (cfg : RunConfig) (stream : ℕ → ℚ) (ts : ℕ) :
    ∀ (rows : List Signal) (st : BtState),
      st.open_positions.length ≤ cfg.max_positions →
      (tryEntries cfg stream ts rows st).open_positions.length ≤
        cfg.max_positions := by
  intro rows
  induction rows with
  | nil => intro st h; exact h
  | cons r rest ih =>
      intro st h
      unfold tryEntries
      split
      · exact h
      · case isFalse hlt =>
          apply ih
          obtain ⟨l, hl, hlen⟩ := enter_position_open cfg stream r ts st
          rw [hl, List.length_append]
          omega

/-- Each bar appends exactly one equity-curve point, stamped with the bar
index and carrying the state's updated mark-to-market equity. -/
theorem bar_step_curve (cfg : RunConfig) (ohlc : List Bar)
    (sigs : List Signal) (stream : ℕ → ℚ) (i : ℕ) (st : BtState) :
    (bar_step cfg ohlc sigs stream i st).curve =
      st.curve ++ [⟨i, (bar_step cfg ohlc sigs stream i st).equity⟩] := by
  unfold bar_step
  dsimp only
  split
  · rw [tryEntries_curve, check_exits_curve]
  · rw [check_exits_curve]

theorem bar_step_trades (cfg : RunConfig) (ohlc : List Bar)
    (sigs : List Signal) (stream : ℕ → ℚ) (i : ℕ) (st : BtState) :
    ∃ l, (bar_step cfg ohlc sigs stream i st).trades = st.trades ++ l ∧
      ∀ t ∈ l, (t.exit_reason = ExitReason.stop_loss ∨
        t.exit_reason = ExitReason.take_profit) ∧ t.exit_ts = i := by
  unfold bar_step
  dsimp only
  obtain ⟨l, hl, hmem⟩ :=
    check_exits_trades cfg stream (barAt ohlc i) i st
  split
  · rw [tryEntries_trades]
    exact ⟨l, hl, hmem⟩
  · exact ⟨l, hl, hmem⟩

theorem bar_step_open_le (cfg : RunConfig) (ohlc : List Bar)
    (sigs : List Signal) (stream : ℕ → ℚ) (i : ℕ) (st : BtState)
    (h : st.open_positions.length ≤ cfg.max_positions) :
    (bar_step cfg ohlc sigs stream i st).open_positions.length ≤
      cfg.max_positions := by
  unfold bar_step
  dsimp only
  split
  · apply tryEntries_open_le
    exact le_trans (check_exits_open_le cfg stream (barAt ohlc i) i st) h
  · exact le_trans (check_exits_open_le cfg stream (barAt ohlc i) i st) h

/-- The bar loop processes a prefix of its index list, appending one curve
point per processed index. -/
theorem runLoop_times (cfg : RunConfig) (ohlc : List Bar)
    (sigs : List Signal) (stream : ℕ → ℚ) :
    ∀ (is : List ℕ) (st : BtState),
      ∃ k, k ≤ is.length ∧
        (runLoop cfg ohlc sigs stream is st).curve.map CurvePoint.time =
          st.curve.map CurvePoint.time ++ is.take k := by
  intro is
  induction is with
  | nil => intro st; exact ⟨0, by simp, by simp [runLoop]⟩
  | cons i rest ih =>
      intro st
      unfold runLoop
      dsimp only
      split
      · refine ⟨1, by simp, ?_⟩
        rw [bar_step_curve]
        simp
      · obtain ⟨k, hk, hmap⟩ := ih (bar_step cfg ohlc sigs stream i st)
        refine ⟨k + 1, by simpa using hk, ?_⟩
        rw [hmap, bar_step_curve]
        simp

theorem runLoop_curve_extend (cfg : RunConfig) (ohlc : List Bar)
    (sigs : List Signal) (stream : ℕ → ℚ) :
    ∀ (is : List ℕ) (st : BtState),
      ∃ l, (runLoop cfg ohlc sigs stream is st).curve = st.curve ++ l := by
  intro is
  induction is with
  | nil => intro st; exact ⟨[], by simp [runLoop]⟩
  | cons i rest ih =>
      intro st
      unfold runLoop
      dsimp only
      split
      · exact ⟨_, bar_step_curve cfg ohlc sigs stream i st⟩
      · obtain ⟨l, hl⟩ := ih (bar_step cfg ohlc sigs stream i st)
        refine ⟨⟨i, (bar_step cfg ohlc sigs stream i st).equity⟩ :: l, ?_⟩
        rw [hl, bar_step_curve]
        simp

theorem runLoop_trades (cfg : RunConfig) (ohlc : List Bar)
    (sigs : List Signal) (stream : ℕ → ℚ) :
    ∀ (is : List ℕ) (st : BtState),
      ∃ l, (runLoop cfg ohlc sigs stream is st).trades = st.trades ++ l ∧
        ∀ t ∈ l, (t.exit_reason = ExitReason.stop_loss ∨
          t.exit_reason = ExitReason.take_profit) ∧ t.exit_ts ∈ is := by
  intro is
  induction is with
  | nil => intro st; exact ⟨[], by simp [runLoop], by simp⟩
  | cons i rest ih =>
      intro st
      obtain ⟨l1, hl1, hmem1⟩ := bar_step_trades cfg ohlc sigs stream i st
      unfold runLoop
      dsimp only
      split
      · refine ⟨l1, hl1, fun t ht => ⟨(hmem1 t ht).1, ?_⟩⟩
        rw [(hmem1 t ht).2]
        exact List.mem_cons_self i rest
      · obtain ⟨l2, hl2, hmem2⟩ := ih (bar_step cfg ohlc sigs stream i st)
        refine ⟨l1 ++ l2, by rw [hl2, hl1]; simp, fun t ht => ?_⟩
        rcases List.mem_append.mp ht with h1 | h1
        · exact ⟨(hmem1 t h1).1, by rw [(hmem1 t h1).2]; exact List.mem_cons_self i rest⟩
        · exact ⟨(hmem2 t h1).1, List.mem_cons_of_mem i (hmem2 t h1).2⟩

theorem runLoop_open_le (cfg : RunConfig) (ohlc : List Bar)
    (sigs : List Signal) (stream : ℕ → ℚ) :
    ∀ (is : List ℕ) (st : BtState),
      st.open_positions.length ≤ cfg.max_positions →
      (runLoop cfg ohlc sigs stream is st).open_positions.length ≤
        cfg.max_positions := by
  intro is
  induction is with
  | nil => intro st h; exact h
  | cons i rest ih =>
      intro st h
      unfold runLoop
      dsimp only
      split
      · exact bar_step_open_le cfg ohlc sigs stream i st h
      · exact ih _ (bar_step_open_le cfg ohlc sigs stream i st h)

/-- The loop stops at the first depleted bar: every curve point except
possibly the final one has strictly positive equity. -/
theorem runLoop_curve_pos (cfg : RunConfig) (ohlc : List Bar)
    (sigs : List Signal) (stream : ℕ → ℚ) :
    ∀ (is : List ℕ) (st : BtState),
      (∀ pt ∈ st.curve, 0 < pt.equity) →
      ∀ pt ∈ (runLoop cfg ohlc sigs stream is st).curve.dropLast,
        0 < pt.equity := by
  intro is
  induction is with
  | nil =>
      intro st h pt hpt
      exact h pt (List.dropLast_sublist _ |>.mem hpt)
  | cons i rest ih =>
      intro st h
      unfold runLoop
      dsimp only
      split
      · intro pt hpt
        rw [bar_step_curve] at hpt
        rw [List.dropLast_concat] at hpt
        exact h pt hpt
      · case isFalse hnd =>
          apply ih
          intro pt hpt
          rw [bar_step_curve] at hpt
          rcases List.mem_append.mp hpt with h1 | h1
          · exact h pt h1
          · have hpt' : pt = ⟨i, (bar_step cfg ohlc sigs stream i st).equity⟩ := by
              simpa using h1
            subst hpt'
            push_neg at hnd
            exact hnd.2

theorem forceCloseGo_curve (cfg : RunConfig) (stream : ℕ → ℚ) (bar : Bar)
    (ts : ℕ) :
    ∀ (copy : List Position) (st : BtState),
      (forceCloseGo cfg stream bar ts copy st).curve = st.curve := by
  intro copy
  induction copy with
  | nil => intro st; rfl
  | cons pos rest ih =>
      intro st
      unfold forceCloseGo
      rw [ih, exit_position_curve]

/-- The force-close phase appends only `end_of_data` trades, stamped with
the final timestamp and settled through the fill simulator on the given
bar's close. -/
theorem forceCloseGo_trades (cfg : RunConfig) (stream : ℕ → ℚ) (bar : Bar)
    (ts : ℕ) :
    ∀ (copy : List Position) (st : BtState),
      ∃ l, (forceCloseGo cfg stream bar ts copy st).trades =
          st.trades ++ l ∧
        ∀ t ∈ l, t.exit_reason = ExitReason.end_of_data ∧ t.exit_ts = ts ∧
          ∃ d, t.exit_price = simulate_fill cfg t.side.opposite bar.close true d := by
  intro copy
  induction copy with
  | nil => intro st; exact ⟨[], by simp [forceCloseGo], by simp⟩
  | cons pos rest ih =>
      intro st
      unfold forceCloseGo
      obtain ⟨t, ht, hreason, hts, hside, hprice⟩ :=
        exit_position_trades cfg stream pos bar ts ExitReason.end_of_data st
      obtain ⟨l', hl', hmem'⟩ :=
        ih (exit_position cfg stream pos bar ts ExitReason.end_of_data st)
      refine ⟨t :: l', by rw [hl', ht]; simp, fun u hu => ?_⟩
      rcases List.mem_cons.mp hu with h1 | h1
      · subst h1
        exact ⟨hreason, hts, stream st.rng, by rw [hprice rfl, hside]⟩
      · exact hmem' u h1

theorem forceCloseGo_open_le (cfg : RunConfig) (stream : ℕ → ℚ) (bar : Bar)
    (ts : ℕ) :
    ∀ (copy : List Position) (st : BtState),
      (forceCloseGo cfg stream bar ts copy st).open_positions.length ≤
        st.open_positions.length := by
  intro copy
  induction copy with
  | nil => intro st; exact le_refl _
  | cons pos rest ih =>
      intro st
      unfold forceCloseGo
      exact le_trans (ih _)
        (exit_position_open_le cfg stream pos bar ts ExitReason.end_of_data st)

theorem force_close_curve (cfg : RunConfig) (stream : ℕ → ℚ)
    (ohlc : List Bar) (st : BtState) :
    (force_close cfg stream ohlc st).curve = st.curve :=
  forceCloseGo_curve cfg stream _ _ st.open_positions st

theorem force_close_trades (cfg : RunConfig) (stream : ℕ → ℚ)
    (ohlc : List Bar) (st : BtState) :
    ∃ l, (force_close cfg stream ohlc st).trades = st.trades ++ l ∧
      ∀ t ∈ l, t.exit_reason = ExitReason.end_of_data ∧
        t.exit_ts = ohlc.length - 1 ∧
        ∃ d, t.exit_price = simulate_fill cfg t.side.opposite
          (barAt ohlc (ohlc.length - 1)).close true d :=
  forceCloseGo_trades cfg stream _ _ st.open_positions st

theorem force_close_open_le (cfg : RunConfig) (stream : ℕ → ℚ)
    (ohlc : List Bar) (st : BtState) :
    (force_close cfg stream ohlc st).open_positions.length ≤
      st.open_positions.length :=
  forceCloseGo_open_le cfg stream _ _ st.open_positions st

/-- Every emitted signal is stamped with an evaluation bar index: at least
the warm-up length, and inside the series. -/
theorem generate_signals_ts (p : Params) (ohlc : List Bar) (s : Signal)
    (h : s ∈ generate_signals p ohlc) :
    minBars p ≤ s.ts ∧ s.ts < ohlc.length := by
  unfold generate_signals at h
  split at h
  · exact absurd h (List.not_mem_nil s)
  · dsimp only at h
    obtain ⟨l, hl, hmem⟩ := sigLoop_signals p ohlc
      (calculate_atr ohlc p.atr_period)
      (if p.use_order_blocks then find_order_blocks ohlc p else [])
      (if p.use_fvg then find_fvg ohlc p else [])
      (if p.use_liquidity_grabs then
        detect_liquidity_grab ohlc
          (detect_market_structure ohlc p.lookback).swings
          p.liquidity_grab_atr 3 p.atr_period
      else [])
      ((List.range ohlc.length).drop (minBars p)) ⟨-9999, []⟩
    rw [hl] at h
    simp only [List.nil_append] at h
    exact mem_drop_range_iff.mp (hmem s h)

/-- Per evaluation bar and direction the generator emits at most two
signals (one from the order-block scan, one from the FVG scan). -/
theorem generate_signals_count (p : Params) (ohlc : List Bar) (i : ℕ)
    (side : Side) :
    ((generate_signals p ohlc).filter (sigCountPred i side)).length ≤ 2 := by
  unfold generate_signals
  split
  · simp
  · dsimp only
    have hnd : ((List.range ohlc.length).drop (minBars p)).Nodup :=
      (List.nodup_range ohlc.length).sublist
        (List.drop_sublist (minBars p) (List.range ohlc.length))
    have hb := sigLoop_count p ohlc
      (calculate_atr ohlc p.atr_period)
      (if p.use_order_blocks then find_order_blocks ohlc p else [])
      (if p.use_fvg then find_fvg ohlc p else [])
      (if p.use_liquidity_grabs then
        detect_liquidity_grab ohlc
          (detect_market_structure ohlc p.lookback).swings
          p.liquidity_grab_atr 3 p.atr_period
      else []) i side
      ((List.range ohlc.length).drop (minBars p)) hnd ⟨-9999, []⟩
    simp only [List.filter_nil, List.length_nil, Nat.zero_add] at hb
    by_cases hmem : i ∈ (List.range ohlc.length).drop (minBars p)
    · rw [if_pos hmem] at hb; omega
    · rw [if_neg hmem] at hb; omega

/-- Bar 0 on the fresh state, when no signal is stamped with timestamp 0:
no exits, no entries, equity marked at the initial balance, one curve
point. -/
theorem bar_step_init (cfg : RunConfig) (ohlc : List Bar)
    (sigs : List Signal) (stream : ℕ → ℚ)
    (h0 : sigs.filter (fun s => decide (s.ts = 0)) = []) :
    bar_step cfg ohlc sigs stream 0 (initState cfg) =
      { initState cfg with
        equity := cfg.initial_balance
        curve := [⟨0, cfg.initial_balance⟩] } := by
  unfold bar_step
  dsimp only
  rw [show check_exits cfg stream (barAt ohlc 0) 0 (initState cfg) =
    initState cfg from rfl, h0]
  split <;> simp [tryEntries, initState, calculate_open_pnl]

theorem run_head (cfg : RunConfig) (ohlc : List Bar) (sigs : List Signal)
    (stream : ℕ → ℚ) (hsig : ¬sigs.isEmpty = true)
    (h0 : sigs.filter (fun s => decide (s.ts = 0)) = [])
    (hn : 0 < ohlc.length) :
    ∃ l, (run cfg ohlc sigs stream).curve =
      ⟨0, cfg.initial_balance⟩ :: l := by
  unfold run
  rw [if_neg hsig]
  rw [force_close_curve]
  obtain ⟨m, hm⟩ : ∃ m, ohlc.length = m + 1 := ⟨ohlc.length - 1, by omega⟩
  rw [hm, List.range_succ_eq_map]
  unfold runLoop
  dsimp only
  rw [bar_step_init cfg ohlc sigs stream h0]
  split
  · exact ⟨[], rfl⟩
  · obtain ⟨l, hl⟩ := runLoop_curve_extend cfg ohlc sigs stream
      (List.map (fun x => x + 1) (List.range m))
      { initState cfg with
        equity := cfg.initial_balance
        curve := [⟨0, cfg.initial_balance⟩] }
    exact ⟨l, by rw [hl]; rfl⟩

theorem run_times (cfg : RunConfig) (ohlc : List Bar) (sigs : List Signal)
    (stream : ℕ → ℚ) :
    (run cfg ohlc sigs stream).curve.map CurvePoint.time =
      List.range (run cfg ohlc sigs stream).curve.length ∧
    (run cfg ohlc sigs stream).curve.length ≤ ohlc.length := by
  unfold run
  split
  · simp [initState]
  · rw [force_close_curve]
    obtain ⟨k, hk, hmap⟩ := runLoop_times cfg ohlc sigs stream
      (List.range ohlc.length) (initState cfg)
    rw [show (initState cfg).curve = [] from rfl] at hmap
    simp only [List.map_nil, List.nil_append] at hmap
    rw [List.take_range] at hmap
    have hlen : (runLoop cfg ohlc sigs stream (List.range ohlc.length)
        (initState cfg)).curve.length = min k ohlc.length := by
      have := congrArg List.length hmap
      simpa using this
    constructor
    · rw [hmap, hlen]
    · rw [hlen]; omega

/-! ## Claim theorems -/

/-- C7: on every bar each open position's exit is decided by an `if/elif`
chain that checks the stop-loss condition first (long: bar-low ≤ stop;
short: bar-high ≥ stop) and the take-profit condition only when no stop
fired (long: bar-high ≥ target; short: bar-low ≤ target), so at most one
exit reason applies per position per bar and `stop_loss`/`take_profit`
never both fire on one exit event; and every exit reason a run ever records
is `stop_loss`, `take_profit` or `end_of_data` — in particular it lies in
the claimed set {stop_loss, take_profit, end_of_data, signal_exit}. -/
theorem C7_exit_priority_and_reasons :
    (∀ (pos : Position) (bar : Bar),
      ((pos.side = Side.buy ∧ bar.low ≤ pos.stop) ∨
       (pos.side = Side.sell ∧ bar.high ≥ pos.stop)) →
        exit_decision pos bar = some ExitReason.stop_loss) ∧
    (∀ (pos : Position) (bar : Bar),
      exit_decision pos bar = some ExitReason.take_profit →
        ((pos.side = Side.buy ∧ bar.high ≥ pos.tp) ∨
         (pos.side = Side.sell ∧ bar.low ≤ pos.tp)) ∧
        ¬((pos.side = Side.buy ∧ bar.low ≤ pos.stop) ∨
          (pos.side = Side.sell ∧ bar.high ≥ pos.stop))) ∧
    (∀ (cfg : RunConfig) (ohlc : List Bar) (sigs : List Signal)
      (stream : ℕ → ℚ) (t : Trade), t ∈ (run cfg ohlc sigs stream).trades →
        t.exit_reason = ExitReason.stop_loss ∨
        t.exit_reason = ExitReason.take_profit ∨
        t.exit_reason = ExitReason.end_of_data) := by
  refine ⟨?_, ?_, ?_⟩
  · intro pos bar h
    unfold exit_decision
    rcases h with ⟨hb, hs⟩ | ⟨hb, hs⟩
    · rw [if_pos ⟨hb, hs⟩]
    · rw [if_neg, if_pos ⟨hb, hs⟩]
      rintro ⟨hb', _⟩
      rw [hb] at hb'
      cases hb'
  · intro pos bar h
    unfold exit_decision at h
    split_ifs at h with h1 h2 h3 h4
    · exact absurd h (by simp)
    · exact absurd h (by simp)
    · exact ⟨Or.inl h3, fun hc => hc.elim (fun x => h1 x) (fun x => h2 x)⟩
    · exact ⟨Or.inr h4, fun hc => hc.elim (fun x => h1 x) (fun x => h2 x)⟩
  · intro cfg ohlc sigs stream t ht
    unfold run at ht
    split at ht
    · exact absurd ht (by simp [initState])
    · obtain ⟨l2, hl2, hmem2⟩ := force_close_trades cfg stream ohlc _
      rw [hl2] at ht
      obtain ⟨l1, hl1, hmem1⟩ := runLoop_trades cfg ohlc sigs stream
        (List.range ohlc.length) (initState cfg)
      rw [hl1] at ht
      rw [show (initState cfg).trades = [] from rfl] at ht
      simp only [List.nil_append] at ht
      rcases List.mem_append.mp ht with h1 | h1
      · rcases (hmem1 t h1).1 with h2 | h2
        · exact Or.inl h2
        · exact Or.inr (Or.inl h2)
      · exact Or.inr (Or.inr (hmem2 t h1).1)

/-- Witness for C7 at concrete inputs: a long position whose bar trades
through the stop exits with `stop_loss`, and the single trade of the
`cfgC3`/`ohlcC3` run has its exit reason in the allowed set. -/
theorem C7_witness :
    exit_decision ⟨Side.buy, 0, 100, 1, 95, 110, 0, 1, 1, 1/100⟩
      ⟨100, 101, 94, 100⟩ = some ExitReason.stop_loss ∧
    ((⟨0, 1, 4, Side.buy, 100, 70, 10, -300, 0, -200, ExitReason.end_of_data,
        -200, -200, 11000, 110, 500⟩ : Trade).exit_reason =
        ExitReason.stop_loss ∨
      (⟨0, 1, 4, Side.buy, 100, 70, 10, -300, 0, -200, ExitReason.end_of_data,
        -200, -200, 11000, 110, 500⟩ : Trade).exit_reason =
        ExitReason.take_profit ∨
      (⟨0, 1, 4, Side.buy, 100, 70, 10, -300, 0, -200, ExitReason.end_of_data,
        -200, -200, 11000, 110, 500⟩ : Trade).exit_reason =
        ExitReason.end_of_data) :=
  ⟨C7_exit_priority_and_reasons.1 ⟨Side.buy, 0, 100, 1, 95, 110, 0, 1, 1, 1/100⟩
      ⟨100, 101, 94, 100⟩ (Or.inl ⟨rfl, by norm_num⟩),
   C7_exit_priority_and_reasons.2.2 cfgC3 ohlcC3 sigsC3 streamOne
      ⟨0, 1, 4, Side.buy, 100, 70, 10, -300, 0, -200, ExitReason.end_of_data,
        -200, -200, 11000, 110, 500⟩ (by decide)⟩

/-- C9: the metrics engine's profit factor is `gross_profit / gross_loss`
when there are losses; it is exactly 0 when there are no trades; when
`gross_loss = 0` and `gross_profit > 0` the raw value is `np.inf` but the
returned record reports 0 (never literal infinity); and the win rate is
exactly 0 when `total_trades = 0`. -/
theorem C9_profit_factor_win_rate :
    (∀ (equity : List ℚ) (init : ℚ),
      (calculate_metrics [] equity init).profit_factor = 0 ∧
      (calculate_metrics [] equity init).win_rate = 0 ∧
      (calculate_metrics [] equity init).total_trades = 0) ∧
    (∀ (pnls equity : List ℚ) (init : ℚ),
      gross_loss_of pnls = 0 → 0 < gross_profit_of pnls →
        profit_factor_raw pnls = PFloat.inf ∧
        (calculate_metrics pnls equity init).profit_factor = 0) ∧
    (∀ (pnls equity : List ℚ) (init : ℚ), 0 < gross_loss_of pnls →
      (calculate_metrics pnls equity init).profit_factor =
        gross_profit_of pnls / gross_loss_of pnls) ∧
    (∀ (pnls equity : List ℚ) (init : ℚ),
      (calculate_metrics pnls equity init).total_trades = 0 →
      (calculate_metrics pnls equity init).win_rate = 0) := by
  have hraw_inf : ∀ pnls : List ℚ, gross_loss_of pnls = 0 →
      0 < gross_profit_of pnls → profit_factor_raw pnls = PFloat.inf := by
    intro pnls hgl hgp
    unfold profit_factor_raw
    rw [if_neg (by rw [hgl]; exact lt_irrefl 0), if_pos hgp]
  have hne_of_gp : ∀ pnls : List ℚ, 0 < gross_profit_of pnls → pnls ≠ [] := by
    intro pnls hgp hnil
    subst hnil
    simp [gross_profit_of] at hgp
  refine ⟨?_, ?_, ?_, ?_⟩
  · intro equity init
    refine ⟨?_, ?_, ?_⟩ <;> simp [calculate_metrics]
  · intro pnls equity init hgl hgp
    refine ⟨hraw_inf pnls hgl hgp, ?_⟩
    have hne := hne_of_gp pnls hgp
    unfold calculate_metrics
    rw [if_neg (by simpa [List.isEmpty_iff] using hne)]
    show profit_factor_reported pnls = 0
    unfold profit_factor_reported
    rw [hraw_inf pnls hgl hgp]
  · intro pnls equity init hgl
    have hne : pnls ≠ [] := by
      intro hnil
      subst hnil
      simp [gross_loss_of] at hgl
    unfold calculate_metrics
    rw [if_neg (by simpa [List.isEmpty_iff] using hne)]
    show profit_factor_reported pnls = _
    unfold profit_factor_reported profit_factor_raw
    rw [if_pos hgl]
  · intro pnls equity init h
    rcases List.eq_nil_or_concat pnls with hnil | ⟨l, a, rfl⟩
    · subst hnil
      simp [calculate_metrics]
    · exfalso
      unfold calculate_metrics at h
      rw [if_neg (by simp)] at h
      simp at h

/-- Witness for C9: concrete trade lists exercising the all-wins branch
(raw infinity reported as 0) and the mixed branch (ratio 5/2). -/
theorem C9_witness :
    gross_loss_of [5] = 0 ∧ 0 < gross_profit_of [5] ∧
    profit_factor_raw [5] = PFloat.inf ∧
    (calculate_metrics [5] [] 100).profit_factor = 0 ∧
    0 < gross_loss_of [5, -2] ∧
    (calculate_metrics [5, -2] [] 100).profit_factor =
      gross_profit_of [5, -2] / gross_loss_of [5, -2] ∧
    (calculate_metrics [] [] 100).win_rate = 0 :=
  ⟨by decide, by decide,
   (C9_profit_factor_win_rate.2.1 [5] [] 100 (by decide) (by decide)).1,
   (C9_profit_factor_win_rate.2.1 [5] [] 100 (by decide) (by decide)).2,
   by decide,
   C9_profit_factor_win_rate.2.2.1 [5, -2] [] 100 (by decide),
   ((C9_profit_factor_win_rate.1 [] 100).2.1)⟩

/-- C10: entries are attempted only while the open-position count is
strictly below `max_positions` (at the cap the entry loop is the identity),
and the bound `open_positions.length ≤ max_positions` is preserved by every
bar step and by the whole loop from any state satisfying it — in
particular it holds at every bar of a run started from the empty state,
and of the final state of `run`. -/
theorem C10_max_positions_invariant :
    (∀ (cfg : RunConfig) (stream : ℕ → ℚ) (ts : ℕ) (rows : List Signal)
      (st : BtState), cfg.max_positions ≤ st.open_positions.length →
        tryEntries cfg stream ts rows st = st) ∧
    (∀ (cfg : RunConfig) (ohlc : List Bar) (sigs : List Signal)
      (stream : ℕ → ℚ) (i : ℕ) (st : BtState),
        st.open_positions.length ≤ cfg.max_positions →
        (bar_step cfg ohlc sigs stream i st).open_positions.length ≤
          cfg.max_positions) ∧
    (∀ (cfg : RunConfig) (ohlc : List Bar) (sigs : List Signal)
      (stream : ℕ → ℚ) (is : List ℕ) (st : BtState),
        st.open_positions.length ≤ cfg.max_positions →
        (runLoop cfg ohlc sigs stream is st).open_positions.length ≤
          cfg.max_positions) ∧
    (∀ (cfg : RunConfig) (ohlc : List Bar) (sigs : List Signal)
      (stream : ℕ → ℚ),
        (run cfg ohlc sigs stream).open_positions.length ≤
          cfg.max_positions) := by
  refine ⟨tryEntries_at_cap, bar_step_open_le, runLoop_open_le, ?_⟩
  intro cfg ohlc sigs stream
  unfold run
  split
  · simp [initState]
  · exact le_trans (force_close_open_le cfg stream ohlc _)
      (runLoop_open_le cfg ohlc sigs stream (List.range ohlc.length)
        (initState cfg) (by simp [initState]))

/-- Witness for C10: at the cap (one open position, `max_positions = 1`)
the entry loop changes nothing, and the final state of the concrete
`cfgC3` run respects the cap. -/
theorem C10_witness :
    tryEntries cfgC3 streamOne 0 sigsC3
      ⟨100, 100, [⟨Side.buy, 1, 100, 10, -1000, 10000, 0, 1, 11000, 110⟩],
        [], [], 1⟩ =
      ⟨100, 100, [⟨Side.buy, 1, 100, 10, -1000, 10000, 0, 1, 11000, 110⟩],
        [], [], 1⟩ ∧
    (run cfgC3 ohlcC3 sigsC3 streamOne).open_positions.length ≤
      cfgC3.max_positions :=
  ⟨C10_max_positions_invariant.1 cfgC3 streamOne 0 sigsC3 _ (by decide),
   C10_max_positions_invariant.2.2.2 cfgC3 ohlcC3 sigsC3 streamOne⟩

/-- C4: for any price series — including one producing no signals, where
the early `_empty_result` return yields an empty curve over zero processed
bars — the equity curve of `Backtester.run` driven by
`SMCStrategy.generate_signals` has exactly one point per processed bar (its
timestamps are `0, 1, …, k-1` for the number `k ≤ len(ohlc)` of processed
bars), and whenever it is non-empty its first value equals the initial
balance. -/
theorem C4_equity_curve_per_bar :
    ∀ (cfg : RunConfig) (p : Params) (ohlc : List Bar) (stream : ℕ → ℚ),
      (run_strategy cfg p ohlc stream).curve.map CurvePoint.time =
        List.range (run_strategy cfg p ohlc stream).curve.length ∧
      (run_strategy cfg p ohlc stream).curve.length ≤ ohlc.length ∧
      ((run_strategy cfg p ohlc stream).curve ≠ [] →
        ((run_strategy cfg p ohlc stream).curve.getD 0 ⟨0, 0⟩).equity =
          cfg.initial_balance) := by
  intro cfg p ohlc stream
  refine ⟨(run_times cfg ohlc _ stream).1, (run_times cfg ohlc _ stream).2, ?_⟩
  intro hne
  by_cases hsig : (generate_signals p ohlc).isEmpty = true
  · exfalso
    apply hne
    unfold run_strategy run
    rw [if_pos hsig]
    rfl
  · have hn : 0 < ohlc.length := by
      by_contra hzero
      apply hne
      have h0 : ohlc.length = 0 := by omega
      unfold run_strategy run
      rw [if_neg hsig, force_close_curve, h0]
      rfl
    have h0 : (generate_signals p ohlc).filter
        (fun s => decide (s.ts = 0)) = [] := by
      rw [List.filter_eq_nil_iff]
      intro s hs
      have := (generate_signals_ts p ohlc s hs).1
      have hmb : 0 < minBars p := by unfold minBars; omega
      simp
      omega
    obtain ⟨l, hl⟩ := run_head cfg ohlc (generate_signals p ohlc) stream
      hsig h0 hn
    unfold run_strategy
    rw [hl]
    rfl

/-- Witness for C4 at a concrete input with a non-empty curve: the
`paramsC2`/`ohlcZ` strategy run processes all 28 bars and starts its curve
at the initial balance. -/
theorem C4_witness :
    (run_strategy cfgC3 paramsC2 ohlcZ streamOne).curve ≠ [] ∧
    ((run_strategy cfgC3 paramsC2 ohlcZ streamOne).curve.getD 0
        ⟨0, 0⟩).equity = cfgC3.initial_balance :=
  ⟨by decide,
   (C4_equity_curve_per_bar cfgC3 paramsC2 ohlcZ streamOne).2.2 (by decide)⟩

/-- C1 (divergence): the claim says a bar is confirmed exactly when a
matching-direction ChoCH holds over the causal prefix OR a matching
liquidity grab has grab index `i`; in particular ChoCH alone confirms.  In
the code, `detect_choch` returns a plain `bool` and the guard
`hasattr(choch, "is_bullish")` is always `False` on a `bool`, so the ChoCH
disjunct is dead: confirmation is independent of the ChoCH value (first
conjunct), and on the concrete 37-bar input `ohlcC1` the evaluation bar 36
(past the warm-up) has a bullish trend, a fired ChoCH over the causal
prefix, and no liquidity grab at 36 — yet `bullish_confirm` is `False`. -/
theorem C1_choch_confirmation_dead :
    (∀ (c c' : Bool) (g : Option LiquidityGrab),
      bullishConfirm c g = bullishConfirm c' g ∧
      bearishConfirm c g = bearishConfirm c' g) ∧
    ((detect_market_structure (ohlcC1.take (36 + 1)) paramsC1.lookback).trend =
        TrendDirection.bullish ∧
      detect_choch (ohlcC1.take (36 + 1))
        (detect_market_structure (ohlcC1.take (36 + 1)) paramsC1.lookback).swings
        (1 / 2) 14 = true ∧
      (detect_liquidity_grab ohlcC1
          (detect_market_structure ohlcC1 paramsC1.lookback).swings
          paramsC1.liquidity_grab_atr 3 paramsC1.atr_period).find?
        (fun g => decide (g.end_idx = 36)) = none ∧
      minBars paramsC1 ≤ 36 ∧ ohlcC1.length = 37 ∧
      bullishConfirm
        (detect_choch (ohlcC1.take (36 + 1))
          (detect_market_structure (ohlcC1.take (36 + 1)) paramsC1.lookback).swings
          (1 / 2) 14)
        ((detect_liquidity_grab ohlcC1
            (detect_market_structure ohlcC1 paramsC1.lookback).swings
            paramsC1.liquidity_grab_atr 3 paramsC1.atr_period).find?
          (fun g => decide (g.end_idx = 36))) = false) :=
  ⟨fun c c' g => ⟨rfl, rfl⟩, by decide⟩

/-- C5 (divergence): on the concrete input `ohlcZ` with `paramsC5`
(`atr_period = 1`, zero-range evaluation bar), the generator emits a buy
signal whose stop equals its entry — computed risk is exactly 0 — although
the spec says such a signal must not be emitted.  The backtester then
silently rejects it through the `stop_distance <= 0` check, so the
frictionless run opens no position and records no trade (the trade-level
half of the claim). -/
theorem C5_zero_risk_signal :
    generate_signals paramsC5 ohlcZ = [⟨26, Side.buy, 50, 50, 50⟩] ∧
    ((generate_signals paramsC5 ohlcZ).getD 0 ⟨0, Side.buy, 0, 0, 0⟩).price -
      ((generate_signals paramsC5 ohlcZ).getD 0 ⟨0, Side.buy, 0, 0, 0⟩).stop =
        0 ∧
    (run cfgC3 ohlcZ (generate_signals paramsC5 ohlcZ) streamOne).trades = [] ∧
    (run cfgC3 ohlcZ (generate_signals paramsC5 ohlcZ) streamOne).open_positions
      = [] := by
  refine ⟨by decide, by decide, by decide, by decide⟩

/-- `find?` returns the first element satisfying the predicate. -/
theorem find_first_append {α : Type} (p : α → Bool) :
    ∀ (l1 : List α) (l2 : List α) (a : α),
      (∀ x ∈ l1, p x = false) → p a = true →
      (l1 ++ a :: l2).find? p = some a := by
  intro l1
  induction l1 with
  | nil =>
      intro l2 a _ ha
      simp only [List.nil_append, List.find?_cons, ha]
  | cons x rest ih =>
      intro l2 a hneg ha
      have hx : p x = false := hneg x (List.mem_cons_self x rest)
      simp only [List.cons_append, List.find?_cons, hx]
      exact ih l2 a (fun y hy => hneg y (List.mem_cons_of_mem x hy)) ha

/-- C2 (counterexample): on the concrete input `ohlcZ` with order blocks
enabled, evaluation bar 26 emits TWO buy signals — the order-block signal
and then, because the source's `break` only leaves the inner zone loop, the
FVG signal on the same bar and direction.  This refutes "at most one signal
per direction per bar" and "a bar on which an order-block signal was
emitted does not also emit an FVG signal in the same direction". -/
theorem C2_counterexample :
    generate_signals paramsC2 ohlcZ =
      [⟨26, Side.buy, 50, 48, 54⟩, ⟨26, Side.buy, 50, 50, 50⟩] ∧
    ((generate_signals paramsC2 ohlcZ).filter
      (sigCountPred 26 Side.buy)).length = 2 := by
  exact ⟨by decide, by decide⟩

/-- C2 (amended): per evaluation bar the generator emits at most TWO
signals per direction — at most one from the order-block scan and at most
one from the FVG scan, order blocks scanned before FVGs — and each scan
accepts exactly the first zone of the matching type, with end index before
the bar, whose `[bottom, top]` interval contains the bar's low (bullish
case; the bearish scans mirror this with the bar's high). -/
theorem C2_at_most_two_per_direction :
    (∀ (p : Params) (ohlc : List Bar) (i : ℕ) (side : Side),
      ((generate_signals p ohlc).filter (sigCountPred i side)).length ≤ 2) ∧
    (∀ (i : ℕ) (low : ℚ) (obs₁ obs₂ : List OrderBlock) (ob : OrderBlock),
      (∀ o ∈ obs₁, ¬(o.type = Dir.bullish ∧ o.end_idx < i ∧
        o.price_bottom ≤ low ∧ low ≤ o.price_top)) →
      ob.type = Dir.bullish → ob.end_idx < i →
      ob.price_bottom ≤ low → low ≤ ob.price_top →
      obPickBull (obs₁ ++ ob :: obs₂) i low = some ob) ∧
    (∀ (i : ℕ) (low : ℚ) (fvgs₁ fvgs₂ : List FairValueGap)
      (f : FairValueGap),
      (∀ g ∈ fvgs₁, ¬(g.type = Dir.bullish ∧ g.end_idx < i ∧
        g.gap_bottom ≤ low ∧ low ≤ g.gap_top)) →
      f.type = Dir.bullish → f.end_idx < i →
      f.gap_bottom ≤ low → low ≤ f.gap_top →
      fvgPickBull (fvgs₁ ++ f :: fvgs₂) i low = some f) := by
  refine ⟨generate_signals_count, ?_, ?_⟩
  · intro i low obs₁ obs₂ ob hneg h1 h2 h3 h4
    unfold obPickBull
    apply find_first_append
    · intro o ho
      have := hneg o ho
      show (decide (o.type = Dir.bullish) && decide (o.end_idx < i) &&
        decide (o.price_bottom ≤ low) && decide (low ≤ o.price_top)) = false
      by_contra hc
      rw [Bool.not_eq_false] at hc
      simp only [Bool.and_eq_true, decide_eq_true_eq] at hc
      exact this ⟨hc.1.1.1, hc.1.1.2, hc.1.2, hc.2⟩
    · show (decide (ob.type = Dir.bullish) && decide (ob.end_idx < i) &&
        decide (ob.price_bottom ≤ low) && decide (low ≤ ob.price_top)) = true
      simp only [Bool.and_eq_true, decide_eq_true_eq]
      exact ⟨⟨⟨h1, h2⟩, h3⟩, h4⟩
  · intro i low fvgs₁ fvgs₂ f hneg h1 h2 h3 h4
    unfold fvgPickBull
    apply find_first_append
    · intro g hg
      have := hneg g hg
      show (decide (g.type = Dir.bullish) && decide (g.end_idx < i) &&
        decide (g.gap_bottom ≤ low) && decide (low ≤ g.gap_top)) = false
      by_contra hc
      rw [Bool.not_eq_false] at hc
      simp only [Bool.and_eq_true, decide_eq_true_eq] at hc
      exact this ⟨hc.1.1.1, hc.1.1.2, hc.1.2, hc.2⟩
    · show (decide (f.type = Dir.bullish) && decide (f.end_idx < i) &&
        decide (f.gap_bottom ≤ low) && decide (low ≤ f.gap_top)) = true
      simp only [Bool.and_eq_true, decide_eq_true_eq]
      exact ⟨⟨⟨h1, h2⟩, h3⟩, h4⟩

/-- Witness for the amended C2: the concrete two-signal bar respects the
≤ 2 bound, and on a concrete order-block list whose head does not contain
the low, the scan picks the second (first containing) block. -/
theorem C2_witness :
    ((generate_signals paramsC2 ohlcZ).filter
      (sigCountPred 26 Side.buy)).length ≤ 2 ∧
    obPickBull ([⟨Dir.bullish, 0, 2, 30, 20, 1⟩] ++
        ⟨Dir.bullish, 0, 3, 52, 48, 1⟩ :: [⟨Dir.bullish, 0, 4, 60, 40, 1⟩])
        26 50 =
      some ⟨Dir.bullish, 0, 3, 52, 48, 1⟩ :=
  ⟨C2_at_most_two_per_direction.1 paramsC2 ohlcZ 26 Side.buy,
   C2_at_most_two_per_direction.2.1 26 50 [⟨Dir.bullish, 0, 2, 30, 20, 1⟩]
     [⟨Dir.bullish, 0, 4, 60, 40, 1⟩] ⟨Dir.bullish, 0, 3, 52, 48, 1⟩
     (by decide) rfl (by decide) (by decide) (by decide)⟩

/-- C3 (counterexample): on `ohlcC3` the account is depleted at bar 2
(the curve stops with 3 points), yet the open position is force-closed
against the DATASET'S FINAL bar: the recorded trade has `exit_ts = 4` and
`exit_price = 70` (bar 4's close), not bar 2's close of 50 — refuting
"force-closed at that same bar's close price". -/
theorem C3_counterexample :
    (run cfgC3 ohlcC3 sigsC3 streamOne).curve.length = 3 ∧
    (run cfgC3 ohlcC3 sigsC3 streamOne).trades.map Trade.exit_ts = [4] ∧
    (run cfgC3 ohlcC3 sigsC3 streamOne).trades.map Trade.exit_reason =
      [ExitReason.end_of_data] ∧
    (run cfgC3 ohlcC3 sigsC3 streamOne).trades.map Trade.exit_price = [70] ∧
    (barAt ohlcC3 2).close = 50 ∧ (4 : ℕ) ≠ 2 ∧ (70 : ℚ) ≠ 50 := by
  refine ⟨by decide, by decide, by decide, by decide, by decide, by decide,
    by decide⟩

/-- C3 (amended): when the balance or equity falls to ≤ 0 the run stops at
that bar — every equity-curve point except possibly the last is strictly
positive, so no bar after the stopping bar contributes a curve point — and
every still-open position is force-closed with reason `end_of_data`
through the fill simulator (opposite side) at the close price of the
dataset's FINAL bar (not the stopping bar), with the final bar's
timestamp. -/
theorem C3_depletion_stop :
    ∀ (cfg : RunConfig) (ohlc : List Bar) (sigs : List Signal)
      (stream : ℕ → ℚ),
      (∀ pt ∈ (run cfg ohlc sigs stream).curve.dropLast, 0 < pt.equity) ∧
      (∀ t ∈ (run cfg ohlc sigs stream).trades,
        t.exit_reason = ExitReason.end_of_data →
          t.exit_ts = ohlc.length - 1 ∧
          ∃ d, t.exit_price = simulate_fill cfg t.side.opposite
            (barAt ohlc (ohlc.length - 1)).close true d) := by
  intro cfg ohlc sigs stream
  constructor
  · unfold run
    split
    · intro pt hpt
      exact absurd hpt (by simp [initState])
    · rw [force_close_curve]
      exact runLoop_curve_pos cfg ohlc sigs stream (List.range ohlc.length)
        (initState cfg) (by simp [initState])
  · intro t ht hreason
    unfold run at ht
    split at ht
    · exact absurd ht (by simp [initState])
    · obtain ⟨l2, hl2, hmem2⟩ := force_close_trades cfg stream ohlc _
      rw [hl2] at ht
      obtain ⟨l1, hl1, hmem1⟩ := runLoop_trades cfg ohlc sigs stream
        (List.range ohlc.length) (initState cfg)
      rw [hl1] at ht
      rw [show (initState cfg).trades = [] from rfl] at ht
      simp only [List.nil_append] at ht
      rcases List.mem_append.mp ht with h1 | h1
      · rcases (hmem1 t h1).1 with h2 | h2 <;> rw [hreason] at h2 <;> cases h2
      · exact ⟨(hmem2 t h1).2.1, (hmem2 t h1).2.2⟩

/-- Witness for the amended C3, at the concrete depleted run: the
sole (end-of-data) trade carries the final bar's timestamp and a
simulator fill of the final close, and the first curve point is strictly
positive. -/
theorem C3_witness :
    (0 : ℚ) <
      (⟨(0 : ℕ), (100 : ℚ)⟩ : CurvePoint).equity ∧
    ((⟨0, 1, 4, Side.buy, 100, 70, 10, -300, 0, -200, ExitReason.end_of_data,
        -200, -200, 11000, 110, 500⟩ : Trade).exit_ts = ohlcC3.length - 1 ∧
      ∃ d, (⟨0, 1, 4, Side.buy, 100, 70, 10, -300, 0, -200,
          ExitReason.end_of_data, -200, -200, 11000, 110, 500⟩ : Trade).exit_price =
        simulate_fill cfgC3
          (⟨0, 1, 4, Side.buy, 100, 70, 10, -300, 0, -200,
            ExitReason.end_of_data, -200, -200, 11000, 110, 500⟩ : Trade).side.opposite
          (barAt ohlcC3 (ohlcC3.length - 1)).close true d) :=
  ⟨(C3_depletion_stop cfgC3 ohlcC3 sigsC3 streamOne).1
      ⟨(0 : ℕ), (100 : ℚ)⟩ (by decide),
   (C3_depletion_stop cfgC3 ohlcC3 sigsC3 streamOne).2
      ⟨0, 1, 4, Side.buy, 100, 70, 10, -300, 0, -200, ExitReason.end_of_data,
        -200, -200, 11000, 110, 500⟩ (by decide) rfl⟩

/-- C6 (counterexample): on the concrete series `ohlcC6` with
`fvg_expand_atr = 1`, the first detected bullish gap over the raw interval
`[high[1], low[3]] = [102, 108]` is recorded as `[98, 112]`: the
boundaries are moved OUTWARD (bottom = `high[i] - expand`,
top = `low[i+2] + expand`), not inward as the claim states. -/
theorem C6_counterexample :
    find_fvg ohlcC6 paramsC6 =
      [⟨Dir.bullish, 1, 3, 112, 98, 60000⟩,
       ⟨Dir.bullish, 2, 4, 113, 97, 40000⟩] ∧
    (barAt ohlcC6 1).high = 102 ∧ (barAt ohlcC6 3).low = 108 ∧
    ((find_fvg ohlcC6 paramsC6).getD 0
        ⟨Dir.bullish, 0, 0, 0, 0, 0⟩).gap_bottom < (barAt ohlcC6 1).high ∧
    (barAt ohlcC6 3).low <
      ((find_fvg ohlcC6 paramsC6).getD 0
        ⟨Dir.bullish, 0, 0, 0, 0, 0⟩).gap_top := by
  refine ⟨by decide, by decide, by decide, by decide, by decide⟩

/-- Membership in the per-triplet scan of `find_fvg`. -/
theorem fvgAt_mem (ohlc : List Bar) (p : Params) (i : ℕ) (f : FairValueGap) :
    f ∈ fvgAt ohlc p (calculate_atr ohlc p.atr_period) i ↔
      ((fvgBullCond ohlc p i ∧ f = fvgBullRecord ohlc p i) ∨
       (¬fvgBullCond ohlc p i ∧ fvgBearCond ohlc p i ∧
         f = fvgBearRecord ohlc p i)) := by
  unfold fvgAt fvgBullCond fvgBearCond fvgBullRecord fvgBearRecord fvgAtrAt
  dsimp only
  split_ifs with h1 h2
  · simp only [List.mem_singleton]
    constructor
    · intro hf
      exact Or.inl ⟨h1, hf⟩
    · rintro (⟨_, hf⟩ | ⟨hn, _, _⟩)
      · exact hf
      · exact absurd h1 hn
  · simp only [List.mem_singleton]
    constructor
    · intro hf
      exact Or.inr ⟨h1, h2, hf⟩
    · rintro (⟨hb, _⟩ | ⟨_, _, hf⟩)
      · exact absurd hb h1
      · exact hf
  · simp only [List.not_mem_nil, false_iff]
    rintro (⟨hb, _⟩ | ⟨_, hb2, _⟩)
    · exact h1 hb
    · exact h2 hb2

/-- C6 (amended): over the scanned range `atr_period ≤ i < len - 2`, a
bullish FVG is detected at the triplet `(i, i+1, i+2)` exactly when
`high[i] < low[i+2]` and the gap is at least `min_gap_atr * ATR` (the
bearish mirror is tested only when the bullish test fails; the two cannot
hold together), and the recorded boundaries are the raw gap edges moved
OUTWARD by `fvg_expand_atr * ATR`. -/
theorem C6_fvg_characterization :
    ∀ (ohlc : List Bar) (p : Params) (f : FairValueGap),
      f ∈ find_fvg ohlc p ↔
        p.atr_period + 3 ≤ ohlc.length ∧
        ∃ i, p.atr_period ≤ i ∧ i + 2 < ohlc.length ∧
          ((fvgBullCond ohlc p i ∧ f = fvgBullRecord ohlc p i) ∨
           (¬fvgBullCond ohlc p i ∧ fvgBearCond ohlc p i ∧
             f = fvgBearRecord ohlc p i)) := by
  intro ohlc p f
  unfold find_fvg
  dsimp only
  split
  · case isTrue h =>
      simp only [List.not_mem_nil, false_iff]
      rintro ⟨hc, -⟩
      omega
  · case isFalse h =>
      rw [List.mem_flatMap]
      constructor
      · rintro ⟨i, hi, hf⟩
        obtain ⟨hi1, hi2⟩ := mem_drop_range_iff.mp hi
        refine ⟨by omega, i, hi1, by omega, ?_⟩
        exact (fvgAt_mem ohlc p i f).mp hf
      · rintro ⟨hlen, i, hi1, hi2, hcase⟩
        refine ⟨i, mem_drop_range_iff.mpr ⟨hi1, by omega⟩, ?_⟩
        exact (fvgAt_mem ohlc p i f).mpr hcase

/-- Witness for the amended C6, at the concrete first gap of `ohlcC6`:
membership of the recorded `[98, 112]` gap yields the characterization's
right-hand side. -/
theorem C6_witness :
    paramsC6.atr_period + 3 ≤ ohlcC6.length ∧
    ∃ i, paramsC6.atr_period ≤ i ∧ i + 2 < ohlcC6.length ∧
      ((fvgBullCond ohlcC6 paramsC6 i ∧
        (⟨Dir.bullish, 1, 3, 112, 98, 60000⟩ : FairValueGap) =
          fvgBullRecord ohlcC6 paramsC6 i) ∨
       (¬fvgBullCond ohlcC6 paramsC6 i ∧ fvgBearCond ohlcC6 paramsC6 i ∧
        (⟨Dir.bullish, 1, 3, 112, 98, 60000⟩ : FairValueGap) =
          fvgBearRecord ohlcC6 paramsC6 i)) :=
  (C6_fvg_characterization ohlcC6 paramsC6
    ⟨Dir.bullish, 1, 3, 112, 98, 60000⟩).mp (by decide)

/-- C8 (counterexample): two runs of the same strategy signals on the same
data differ in final balance, per-trade pnl and equity curve when the
slippage draws differ — the run's outputs DO depend on the values drawn
from the (in the source: shared, unseeded, process-global) random module,
which the backtester never disables nor seeds. -/
theorem C8_counterexample :
    (run cfgC8 ohlcC8 sigsC8 streamOne).balance ≠
      (run cfgC8 ohlcC8 sigsC8 streamB).balance ∧
    (run cfgC8 ohlcC8 sigsC8 streamOne).trades.map Trade.pnl ≠
      (run cfgC8 ohlcC8 sigsC8 streamB).trades.map Trade.pnl ∧
    (run cfgC8 ohlcC8 sigsC8 streamOne).curve ≠
      (run cfgC8 ohlcC8 sigsC8 streamB).curve := by
  refine ⟨by decide, by decide, by decide⟩

/-- C8 (amended): the full strategy-plus-backtest pipeline is a
deterministic function of the price data and the slippage-draw sequence —
two runs whose draw sequences agree pointwise (identical per-run seeding of
the random source) produce identical states, hence identical trade counts,
net profit and equity curves — and with `add_randomness = False` the fill
simulator's output does not depend on the draw at all. -/
theorem C8_determinism :
    (∀ (cfg : RunConfig) (p : Params) (ohlc : List Bar) (s1 s2 : ℕ → ℚ),
      (∀ k, s1 k = s2 k) →
        run_strategy cfg p ohlc s1 = run_strategy cfg p ohlc s2) ∧
    (∀ (cfg : RunConfig) (side : Side) (price d1 d2 : ℚ),
      simulate_fill cfg side price false d1 =
        simulate_fill cfg side price false d2) := by
  constructor
  · intro cfg p ohlc s1 s2 h
    have : s1 = s2 := funext h
    rw [this]
  · intro cfg side price d1 d2
    cases side <;> rfl

/-- Witness for the amended C8: equal draw streams reproduce the concrete
`ohlcZ` strategy run exactly, and a randomness-disabled fill ignores two
different draws. -/
theorem C8_witness :
    run_strategy cfgC8 paramsC2 ohlcZ streamOne =
      run_strategy cfgC8 paramsC2 ohlcZ streamOne ∧
    simulate_fill cfgC8 Side.buy 100 false 1 =
      simulate_fill cfgC8 Side.buy 100 false (6/5) :=
  ⟨C8_determinism.1 cfgC8 paramsC2 ohlcZ streamOne streamOne fun _ => rfl,
   C8_determinism.2 cfgC8 Side.buy 100 1 (6/5)⟩

end SMC
